import Mathlib

/-!
# Receipt processor: validation, scoring and the in-memory store

A shallow embedding of `handler/handler.go` and `pkg/requests.go`.

* Go strings are modelled as Lean strings (sequences of Unicode code points); `len` is the UTF-8
  byte length.
* The regular expressions of `ValidateReceipt` are transcribed as syntax trees and run by a
  derivative matcher; `MatchString` on an `^...$` pattern is membership of the whole text.
* The library calls used by `CalculatePointsFromReceipt` (`strconv.ParseInt`,
  `strconv.ParseFloat`, float64 arithmetic, `time.Parse`) are modelled after their documented
  behaviour, error results included, because the source discards every error.
* A handler runs as one atomic step on the pair of maps; the identifier drawn by
  `uuid.NewString` is an input of the step.
-/

namespace Receipts

/-! ## Data model (`pkg/requests.go`) -/

/-- The Go struct `pkg.ReceiptItem`. -/
structure ReceiptItem where
  ShortDescription : String
  Price : String
  deriving DecidableEq, Repr

/-- The Go struct `pkg.Receipt`. -/
structure Receipt where
  Retailer : String
  PurchaseDate : String
  PurchaseTime : String
  Items : List ReceiptItem
  Total : String
  PointsEarned : Int
  deriving DecidableEq, Repr

/-! ## Character classes -/

/-- ASCII digit, the class `\d` of Go regexps and the digit test of `strconv` and `time`. -/
def isDigit (c : Char) : Bool := decide (48 ≤ c.toNat) && decide (c.toNat ≤ 57)

/-- The class `\w` of Go regexps: `[0-9A-Za-z_]`. -/
def isWord (c : Char) : Bool :=
  isDigit c || (decide (65 ≤ c.toNat) && decide (c.toNat ≤ 90))
    || (decide (97 ≤ c.toNat) && decide (c.toNat ≤ 122)) || c.toNat == 95

/-- The class `\s` of Go regexps: `[\t\n\f\r ]`. -/
def isReSpace (c : Char) : Bool :=
  c.toNat == 9 || c.toNat == 10 || c.toNat == 12 || c.toNat == 13 || c.toNat == 32

/-- Whether `c` is one of the characters listed in `cs` (a bracket expression). -/
def oneOf (cs : List Char) (c : Char) : Bool := cs.any (fun d => d.toNat == c.toNat)

/-- Go's `unicode.IsSpace`, the characters `strings.TrimSpace` removes. -/
def unicodeIsSpace (c : Char) : Bool :=
  let n := c.toNat
  (decide (9 ≤ n) && decide (n ≤ 13)) || n == 32 || n == 0x85 || n == 0xA0 || n == 0x1680
    || (decide (0x2000 ≤ n) && decide (n ≤ 0x200A)) || n == 0x2028 || n == 0x2029
    || n == 0x202F || n == 0x205F || n == 0x3000

/-! ## Regular expressions -/

/-- Syntax of the regular expressions used by the validator. -/
inductive Regex where
  | nothing : Regex
  | empty : Regex
  | cls (p : Char → Bool) : Regex
  | seq (a b : Regex) : Regex
  | alt (a b : Regex) : Regex
  | star (a : Regex) : Regex

namespace Regex

/-- Whether the expression matches the empty text. -/
def nullable : Regex → Bool
  | nothing => false
  | empty => true
  | cls _ => false
  | seq a b => nullable a && nullable b
  | alt a b => nullable a || nullable b
  | star _ => true

/-- Brzozowski derivative: what remains to be matched after reading `c`. -/
def deriv : Regex → Char → Regex
  | nothing, _ => nothing
  | empty, _ => nothing
  | cls p, c => if p c then empty else nothing
  | seq a b, c => if nullable a then alt (seq (deriv a c) b) (deriv b c) else seq (deriv a c) b
  | alt a b, c => alt (deriv a c) (deriv b c)
  | star a, c => seq (deriv a c) (star a)

/-- Whole-text match, `regexp.MatchString` for a pattern anchored by `^` and `$`. -/
def matchChars (r : Regex) : List Char → Bool
  | [] => nullable r
  | c :: cs => matchChars (deriv r c) cs

/-- The operator `x+`. -/
def plus (a : Regex) : Regex := seq a (star a)

/-- The operator `x{2}`. -/
def rep2 (a : Regex) : Regex := seq a a

/-- The operator `x{3}`. -/
def rep3 (a : Regex) : Regex := seq a (seq a a)

/-- A literal character. -/
def lit (c : Char) : Regex := cls (fun d => d.toNat == c.toNat)

/-- The class `\d`. -/
def digit : Regex := cls isDigit

/-- The metacharacter `.` without the `s` flag: any character but a newline. -/
def anyChar : Regex := cls (fun c => c.toNat != 10)

/-- A character range `[a-b]`. -/
def range (a b : Char) : Regex := cls (fun c => decide (a.toNat ≤ c.toNat) && decide (c.toNat ≤ b.toNat))

/-- Go's `MatchString` on a string. -/
def MatchString (r : Regex) (s : String) : Bool := matchChars r s.data

end Regex

open Regex in
/-- The pattern `^\S+$` of `validRetailer`. -/
def validRetailer : Regex := plus (cls (fun c => !isReSpace c))

open Regex in
/-- The pattern `^[1,2]\d{3}-[0,1]\d-[0,1,2,3]\d$` of `validDate`; the commas stand inside the
bracket expressions and so belong to the three classes. -/
def validDate : Regex :=
  seq (cls (oneOf ['1', ',', '2'])) (seq (rep3 digit) (seq (lit '-')
    (seq (cls (oneOf ['0', ',', '1'])) (seq digit (seq (lit '-')
      (seq (cls (oneOf ['0', ',', '1', ',', '2', ',', '3'])) digit))))))

open Regex in
/-- The pattern `^(0[0-9]|1[0-9]|2[0-3]):[0-5][0-9]$` of `validTime`. -/
def validTime : Regex :=
  seq (alt (seq (lit '0') (range '0' '9'))
        (alt (seq (lit '1') (range '0' '9')) (seq (lit '2') (range '0' '3'))))
    (seq (lit ':') (seq (range '0' '5') (range '0' '9')))

open Regex in
/-- The pattern `^\d+.\d{2}$` of `validMoney`; its `.` is the unescaped metacharacter. -/
def validMoney : Regex := seq (plus digit) (seq anyChar (rep2 digit))

open Regex in
/-- The pattern `^[\w\s\-]+$` of `validDescription`. -/
def validDescription : Regex := plus (cls (fun c => isWord c || isReSpace c || c.toNat == 45))

/-! ## `ValidateReceipt` -/

/-- What the two library calls at the head of `ValidateReceipt` make of a request body:
`ioutil.ReadAll` fails, `jsoniter.Unmarshal` fails, or a receipt is decoded. -/
inductive Body where
  | readError : Body
  | unmarshalError : Body
  | decoded (r : Receipt) : Body
  deriving DecidableEq

/-- The item loop of `ValidateReceipt`: the first item with a bad description or price is an
error. -/
def itemsValid : List ReceiptItem → Bool
  | [] => true
  | item :: rest =>
    if !validDescription.MatchString item.ShortDescription || !validMoney.MatchString item.Price
    then false else itemsValid rest

/-- The function `ValidateReceipt`: the decoded receipt, or the error of the first failed
check, written as its message (for the two wrapped library errors, the message they are wrapped
with). -/
def ValidateReceipt : Body → Except String Receipt
  | .readError => .error "ValidateReceipt::ReadAll"
  | .unmarshalError => .error "ValidateReceipt::Unmarshal"
  | .decoded receipt =>
    if !validRetailer.MatchString receipt.Retailer then .error "Invalid retailer"
    else if !validDate.MatchString receipt.PurchaseDate then .error "Invalid date"
    else if !validTime.MatchString receipt.PurchaseTime then .error "Invalid time"
    else if !validMoney.MatchString receipt.Total then .error "Invalid total"
    else if !itemsValid receipt.Items then .error "invalid item"
    else .ok receipt

/-! ## Library models: strings and integers -/

/-- Go's `strings.ReplaceAll(s, ".", "")`: every point removed. -/
def removePoints (cs : List Char) : List Char := cs.filter (fun c => c.toNat != 46)

/-- Go's `strings.TrimSpace`: leading and trailing white space removed. -/
def TrimSpace (cs : List Char) : List Char :=
  ((cs.dropWhile unicodeIsSpace).reverse.dropWhile unicodeIsSpace).reverse

/-- Number of bytes of the UTF-8 encoding of a character. -/
def utf8Len (c : Char) : Nat :=
  if c.toNat < 0x80 then 1 else if c.toNat < 0x800 then 2 else if c.toNat < 0x10000 then 3 else 4

/-- Go's `len` of a string: its length in bytes. -/
def byteLen (cs : List Char) : Nat := (cs.map utf8Len).sum

/-- Value of a decimal digit character. -/
def digitVal (c : Char) : Nat := c.toNat - 48

/-- The error kinds of `strconv`: `ErrSyntax` and `ErrRange`. -/
inductive NumError where
  | badText : NumError
  | outOfRange : NumError
  deriving DecidableEq, Repr

/-- The digit loop of `strconv.ParseUint(s, 10, 32)` with accumulator `n`: a character that is
not a digit is a syntax error with value 0; a value above `2^32 - 1` stops the loop at once with
that maximum and a range error. -/
def parseUintLoop : List Char → Nat → Nat × Option NumError
  | [], n => (n, none)
  | c :: cs, n =>
    if !isDigit c then (0, some .badText)
    else if 10 * n + digitVal c > 2 ^ 32 - 1 then (2 ^ 32 - 1, some .outOfRange)
    else parseUintLoop cs (10 * n + digitVal c)

/-- Go's `strconv.ParseUint(s, 10, 32)`. -/
def ParseUint32 (cs : List Char) : Nat × Option NumError :=
  if cs = [] then (0, some .badText) else parseUintLoop cs 0

/-- The range check of `strconv.ParseInt(_, 10, 32)` on the unsigned value `un` read after the
sign: a magnitude that does not fit 32 signed bits gives the nearest bound and a range error. -/
def clampInt32 (neg : Bool) (un : Nat) : Int × Option NumError :=
  if !neg && decide (2 ^ 31 ≤ un) then (2 ^ 31 - 1, some .outOfRange)
  else if neg && decide (2 ^ 31 < un) then (-(2 ^ 31), some .outOfRange)
  else (if neg then -(un : Int) else (un : Int), none)

/-- Go's `strconv.ParseInt(s, 10, 32)`: the value returned and the error, if any. -/
def ParseInt32 (cs : List Char) : Int × Option NumError :=
  match cs with
  | [] => (0, some .badText)
  | c :: rest =>
    let neg := c.toNat == 45
    let body := if c.toNat == 43 || c.toNat == 45 then rest else c :: rest
    match ParseUint32 body with
    | (_, some .badText) => (0, some .badText)
    | (un, _) => clampInt32 neg un

/-- Go's `int` on a 64-bit platform: the representative of `n` modulo `2^64` in
`[-2^63, 2^63)`. -/
def wrapInt64 (n : Int) : Int := (n + 2 ^ 63) % 2 ^ 64 - 2 ^ 63

/-! ## Library model: float64 -/

/-- A float64 value: NaN, an infinity, or the finite number `± mant * 2 ^ exp`. -/
inductive F64 where
  | nan : F64
  | inf (neg : Bool) : F64
  | fin (neg : Bool) (mant : Nat) (exp : Int) : F64
  deriving DecidableEq, Repr

/-- Number of binary digits of `n`, by halving at most `fuel` times. -/
def bitLenAux : Nat → Nat → Nat
  | 0, _ => 0
  | fuel + 1, n => if n = 0 then 0 else bitLenAux fuel (n / 2) + 1

/-- Number of binary digits of `n`: the least `k` with `n < 2 ^ k`. -/
def bitLen (n : Nat) : Nat := bitLenAux n n

/-- For positive `n` and `d`, the integer `L` with `2 ^ L ≤ n / d < 2 ^ (L + 1)`. -/
def ilog2Ratio (n d : Nat) : Int :=
  let k : Int := (bitLen n : Int) - (bitLen d : Int)
  let above : Bool :=
    if 0 ≤ k then decide (d * 2 ^ k.toNat ≤ n) else decide (d ≤ n * 2 ^ (-k).toNat)
  if above then k else k - 1

/-- IEEE 754 rounding of the rational `± n / d` (with `d > 0`) to the nearest float64, ties to
the even mantissa: 53 bits of precision, gradual underflow below `2 ^ -1022`, overflow to an
infinity. -/
def roundRatio (neg : Bool) (n d : Nat) : F64 :=
  if n = 0 then .fin neg 0 0
  else
    let e : Int := max (ilog2Ratio n d - 52) (-1074)
    let num : Nat := if 0 ≤ e then n else n * 2 ^ (-e).toNat
    let den : Nat := if 0 ≤ e then d * 2 ^ e.toNat else d
    let q := num / den
    let r := num % den
    let m := if decide (den < 2 * r) || (decide (2 * r = den) && decide (q % 2 = 1)) then q + 1 else q
    if decide (971 < e) || (decide (e = 971) && decide (m = 2 ^ 53)) then .inf neg else .fin neg m e

/-- Rounding of the dyadic number `± m * 2 ^ e`. -/
def roundDyadic (neg : Bool) (m : Nat) (e : Int) : F64 :=
  if 0 ≤ e then roundRatio neg (m * 2 ^ e.toNat) 1 else roundRatio neg m (2 ^ (-e).toNat)

namespace F64

/-- Float64 multiplication. -/
def mul : F64 → F64 → F64
  | nan, _ => nan
  | _, nan => nan
  | inf a, inf b => inf (xor a b)
  | inf a, fin b m _ => if m = 0 then nan else inf (xor a b)
  | fin a m _, inf b => if m = 0 then nan else inf (xor a b)
  | fin a m e, fin b m' e' => roundDyadic (xor a b) (m * m') (e + e')

/-- Float64 division. -/
def div : F64 → F64 → F64
  | nan, _ => nan
  | _, nan => nan
  | inf _, inf _ => nan
  | inf a, fin b _ _ => inf (xor a b)
  | fin a _ _, inf b => fin (xor a b) 0 0
  | fin a m e, fin b m' e' =>
    if m' = 0 then (if m = 0 then nan else inf (xor a b))
    else roundRatio (xor a b) (m * 2 ^ (e - e').toNat) (m' * 2 ^ (e' - e).toNat)

/-- Go's `math.Ceil`. -/
def ceil : F64 → F64
  | nan => nan
  | inf a => inf a
  | fin a m e =>
    if 0 ≤ e then fin a m e
    else if a then fin true (m / 2 ^ (-e).toNat) 0
    else fin false ((m + 2 ^ (-e).toNat - 1) / 2 ^ (-e).toNat) 0

/-- Go's conversion `int(f)` on a 64-bit platform: truncation toward zero. For NaN, the
infinities and values outside the int64 range the language leaves the result to the
implementation; the value taken here is the one amd64 produces, `-2 ^ 63`. -/
def toInt : F64 → Int
  | nan => -(2 ^ 63)
  | inf _ => -(2 ^ 63)
  | fin a m e =>
    let mag : Nat := if 0 ≤ e then m * 2 ^ e.toNat else m / 2 ^ (-e).toNat
    let v : Int := if a then -(mag : Int) else (mag : Int)
    if -(2 ^ 63) ≤ v ∧ v < 2 ^ 63 then v else -(2 ^ 63)

end F64

/-! ## Library model: `strconv.ParseFloat` -/

/-- ASCII lower-casing of a character. -/
def asciiLower (c : Char) : Nat := if 65 ≤ c.toNat ∧ c.toNat ≤ 90 then c.toNat + 32 else c.toNat

/-- A hexadecimal digit that is a letter. -/
def isHexLetter (c : Char) : Bool := decide (97 ≤ asciiLower c) && decide (asciiLower c ≤ 102)

/-- The texts `ParseFloat` reads as an infinity or NaN: `inf` and `infinity` with an optional
sign, `nan` without one, in any letter case. -/
def specialFloat (cs : List Char) : Option F64 :=
  let low := fun (l : List Char) => l.map asciiLower
  let isInf := fun (l : List Char) =>
    decide (low l = [105, 110, 102]) || decide (low l = [105, 110, 102, 105, 110, 105, 116, 121])
  match cs with
  | [] => none
  | c :: rest =>
    if c.toNat == 43 then (if isInf rest then some (.inf false) else none)
    else if c.toNat == 45 then (if isInf rest then some (.inf true) else none)
    else if isInf cs then some (.inf false)
    else if low cs = [110, 97, 110] then some .nan
    else none

/-- Accumulators of the mantissa loop of `readFloat`. -/
structure MantState where
  mant : Nat
  frac : Nat
  sawdot : Bool
  sawdigits : Bool
  underscores : Bool

/-- The mantissa loop of `readFloat`: digits (hexadecimal ones too when `hex`), underscores and
at most one point; returns the accumulators and the unread rest. `mant` is the number written by
all the digits and `frac` the count of digits after the point. -/
def readMant (hex : Bool) : List Char → MantState → MantState × List Char
  | [], st => (st, [])
  | c :: cs, st =>
    if c.toNat == 95 then readMant hex cs { st with underscores := true }
    else if c.toNat == 46 then
      if st.sawdot then (st, c :: cs) else readMant hex cs { st with sawdot := true }
    else if isDigit c then
      readMant hex cs { st with
        sawdigits := true
        mant := st.mant * (if hex then 16 else 10) + digitVal c
        frac := if st.sawdot then st.frac + 1 else st.frac }
    else if hex && isHexLetter c then
      readMant hex cs { st with
        sawdigits := true
        mant := st.mant * 16 + (asciiLower c - 97 + 10)
        frac := if st.sawdot then st.frac + 1 else st.frac }
    else (st, c :: cs)

/-- The exponent digit loop of `readFloat`: digits and underscores; the exponent stops growing
once it has reached 10000. Returns the exponent, the underscore flag and the unread rest. -/
def readExpDigits : List Char → Nat → Bool → Nat × Bool × List Char
  | [], e, u => (e, u, [])
  | c :: cs, e, u =>
    if c.toNat == 95 then readExpDigits cs e true
    else if isDigit c then readExpDigits cs (if e < 10000 then e * 10 + digitVal c else e) u
    else (e, u, c :: cs)

/-- The last character class seen by `underscoreOK`. -/
inductive Saw where
  | start : Saw
  | digit : Saw
  | under : Saw
  | other : Saw
  deriving DecidableEq

/-- The scan of `underscoreOK`: an underscore must follow a digit and be followed by one. -/
def underscoreScan (hex : Bool) : List Char → Saw → Bool
  | [], saw => saw != .under
  | c :: cs, saw =>
    if isDigit c || (hex && isHexLetter c) then underscoreScan hex cs .digit
    else if c.toNat == 95 then (if saw != .digit then false else underscoreScan hex cs .under)
    else if saw == .under then false
    else underscoreScan hex cs .other

/-- Go's `underscoreOK`: whether the underscores of a number are placed as Go literals allow. -/
def underscoreOK (cs : List Char) : Bool :=
  let body := match cs with
    | c :: rest => if c.toNat == 45 || c.toNat == 43 then rest else cs
    | [] => cs
  match body with
  | a :: b :: rest =>
    if a.toNat == 48 && (asciiLower b == 98 || asciiLower b == 111 || asciiLower b == 120) then
      underscoreScan (asciiLower b == 120) rest .digit
    else underscoreScan false body .start
  | _ => underscoreScan false body .start

/-- A number as `readFloat` reads it: `± mant * base ^ (-frac) * b ^ exp`, with `base = 16` and
`b = 2` for a hexadecimal number and `base = b = 10` for a decimal one. -/
structure FloatText where
  neg : Bool
  hex : Bool
  mant : Nat
  frac : Nat
  exp : Int
  deriving DecidableEq, Repr

/-- The end of `readFloat` together with the length check of `ParseFloat`: nothing may be left
unread, and underscores must be well placed. -/
def finishFloat (whole rest : List Char) (underscores : Bool) (t : FloatText) : Option FloatText :=
  if rest ≠ [] then none
  else if underscores && !underscoreOK whole then none
  else some t

/-- Go's `readFloat`, on a text that `ParseFloat` accepts as a whole: optional sign, optional
`0x`, mantissa, optional exponent (required after a hexadecimal mantissa). -/
def readFloat (cs : List Char) : Option FloatText :=
  match cs with
  | [] => none
  | c :: rest =>
    let neg := c.toNat == 45
    let s1 := if c.toNat == 43 || c.toNat == 45 then rest else cs
    let hex := match s1 with
      | a :: b :: _ :: _ => a.toNat == 48 && asciiLower b == 120
      | _ => false
    let s2 := if hex then s1.drop 2 else s1
    match readMant hex s2 ⟨0, 0, false, false, false⟩ with
    | (st, s3) =>
      if !st.sawdigits then none
      else
        let expChar : Nat := if hex then 112 else 101
        match s3 with
        | x :: s4 =>
          if asciiLower x == expChar then
            match s4 with
            | [] => none
            | y :: s5 =>
              let eneg := y.toNat == 45
              let s6 := if y.toNat == 43 || y.toNat == 45 then s5 else s4
              match s6 with
              | [] => none
              | z :: _ =>
                if !isDigit z then none
                else
                  match readExpDigits s6 0 st.underscores with
                  | (e, u, s7) =>
                    finishFloat cs s7 u
                      ⟨neg, hex, st.mant, st.frac, if eneg then -(e : Int) else (e : Int)⟩
          else if hex then none
          else finishFloat cs s3 st.underscores ⟨neg, hex, st.mant, st.frac, 0⟩
        | [] =>
          if hex then none
          else finishFloat cs s3 st.underscores ⟨neg, hex, st.mant, st.frac, 0⟩

/-- The float64 nearest to the number a `FloatText` writes. -/
def FloatText.value (t : FloatText) : F64 :=
  if t.hex then roundDyadic t.neg t.mant (t.exp - 4 * (t.frac : Int))
  else
    let x : Int := t.exp - (t.frac : Int)
    if 0 ≤ x then roundRatio t.neg (t.mant * 10 ^ x.toNat) 1
    else roundRatio t.neg t.mant (10 ^ (-x).toNat)

/-- Go's `strconv.ParseFloat(s, 64)` (any bit size other than 32 means 64): the value returned
and the error, if any. A text that is not a number gives 0 and a syntax error; a number too
large for a float64 gives an infinity and a range error. -/
def ParseFloat (cs : List Char) : F64 × Option NumError :=
  match specialFloat cs with
  | some f => (f, none)
  | none =>
    match readFloat cs with
    | none => (.fin false 0 0, some .badText)
    | some t =>
      match t.value with
      | .inf a => (.inf a, some .outOfRange)
      | f => (f, none)

/-! ## Library model: `time.Parse` -/

/-- Go's `isLeap`. -/
def isLeap (year : Nat) : Bool := year % 4 == 0 && (year % 100 != 0 || year % 400 == 0)

/-- Go's `daysIn`: the number of days of a month of a year. -/
def daysIn (month year : Nat) : Nat :=
  if month = 2 then (if isLeap year then 29 else 28)
  else if month = 4 ∨ month = 6 ∨ month = 9 ∨ month = 11 then 30
  else 31

/-- The number written by two digit characters. -/
def twoDigits (a b : Char) : Nat := 10 * digitVal a + digitVal b

/-- Go's `time.Parse("2006-01-02", s)`: year, month and day when `s` is four digits, `-`, two
digits, `-`, two digits, the month is in 1..12 and the day exists in that month; otherwise the
parse fails. -/
def parseDate (cs : List Char) : Option (Nat × Nat × Nat) :=
  match cs with
  | [y1, y2, y3, y4, s1, m1, m2, s2, d1, d2] =>
    if isDigit y1 && isDigit y2 && isDigit y3 && isDigit y4 && s1.toNat == 45
        && isDigit m1 && isDigit m2 && s2.toNat == 45 && isDigit d1 && isDigit d2 then
      let year := 1000 * digitVal y1 + 100 * digitVal y2 + 10 * digitVal y3 + digitVal y4
      let month := twoDigits m1 m2
      let day := twoDigits d1 d2
      if month < 1 ∨ 12 < month then none
      else if day < 1 ∨ daysIn month year < day then none
      else some (year, month, day)
    else none
  | _ => none

/-- The value of `formattedDate.Month()` after `formattedDate, _ := time.Parse(DateLayout, s)`:
the month parsed, or January, the month of the zero `Time` that a failed parse returns. -/
def dateMonth (cs : List Char) : Nat :=
  match parseDate cs with
  | some (_, month, _) => month
  | none => 1

/-- Go's `time.Parse("15:04", s)`: hour and minute when `s` is an hour of one or two digits
below 24, `:`, and a minute of two digits below 60; otherwise the parse fails. -/
def parseClock (cs : List Char) : Option (Nat × Nat) :=
  let finish := fun (hour : Nat) (rest : List Char) =>
    match rest with
    | [s, m1, m2] =>
      if s.toNat == 58 && isDigit m1 && isDigit m2 && decide (hour < 24)
          && decide (twoDigits m1 m2 < 60) then some (hour, twoDigits m1 m2)
      else none
    | _ => none
  match cs with
  | h1 :: h2 :: rest =>
    if !isDigit h1 then none
    else if isDigit h2 then finish (twoDigits h1 h2) rest
    else finish (digitVal h1) (h2 :: rest)
  | _ => none

/-- The instant `time.Parse("15:04", s)` returns, in minutes since 0000-01-01 00:00 UTC: a
parsed clock time lies on 1 January of year 0; a failed parse returns the zero `Time`,
0001-01-01 00:00, which is 366 days later. -/
def clockInstant (cs : List Char) : Nat :=
  match parseClock cs with
  | some (hour, minute) => 60 * hour + minute
  | none => 366 * 1440

/-! ## `CalculatePointsFromReceipt` -/

/-- The constant `TwoPM`. -/
def TwoPM : String := "14:00"

/-- The constant `FourPM`. -/
def FourPM : String := "16:00"

/-- The test of the retailer loop: an ASCII letter or digit. -/
def isAlnum (c : Char) : Bool :=
  (decide (97 ≤ c.toNat) && decide (c.toNat ≤ 122)) || (decide (65 ≤ c.toNat) && decide (c.toNat ≤ 90))
    || (decide (48 ≤ c.toNat) && decide (c.toNat ≤ 57))

/-- One point for every alphanumeric character of the retailer name. -/
def retailerPoints (retailer : String) : Int := ((retailer.data.filter isAlnum).length : Int)

/-- The variable `receiptTotalInCents`: `strconv.ParseInt` with bit size 32 on the total with
its points removed, the error discarded. -/
def receiptTotalInCents (total : String) : Int := (ParseInt32 (removePoints total.data)).1

/-- The round-dollar rule: 50 points when `receiptTotalInCents % 100 == 0`. -/
def roundDollarPoints (total : String) : Int :=
  if (receiptTotalInCents total).tmod 100 = 0 then 50 else 0

/-- The quarter rule: 25 points when `receiptTotalInCents % 25 == 0`. -/
def quarterPoints (total : String) : Int :=
  if (receiptTotalInCents total).tmod 25 = 0 then 25 else 0

/-- Five points for every two items. -/
def pairPoints (items : List ReceiptItem) : Int := ((items.length / 2 * 5 : Nat) : Int)

/-- The body of the item loop: when the byte length of the trimmed description is a multiple of
3, the price with its points removed is read by `strconv.ParseFloat` (error discarded) and the
item earns `int(math.Ceil(itemPriceInCents * 0.2 / 100.0))`, computed in float64. -/
def itemPoints (item : ReceiptItem) : Int :=
  if byteLen (TrimSpace item.ShortDescription.data) % 3 = 0 then
    let itemPriceInCents := (ParseFloat (removePoints item.Price.data)).1
    (((itemPriceInCents.mul (roundRatio false 1 5)).div (.fin false 100 0)).ceil).toInt
  else 0

/-- The item loop. -/
def itemsPoints (items : List ReceiptItem) : Int := (items.map itemPoints).sum

/-- The date rule: 6 points when `formattedDate.Month() % 2 == 1`. -/
def datePoints (purchaseDate : String) : Int :=
  if dateMonth purchaseDate.data % 2 = 1 then 6 else 0

/-- The time rule: 10 points when the parsed purchase time is after the parsed `TwoPM` and
before the parsed `FourPM`. -/
def timePoints (purchaseTime : String) : Int :=
  if clockInstant TwoPM.data < clockInstant purchaseTime.data
      ∧ clockInstant purchaseTime.data < clockInstant FourPM.data then 10 else 0

/-- The function `CalculatePointsFromReceipt`: the rule contributions added up in a Go `int`. -/
def CalculatePointsFromReceipt (receipt : Receipt) : Int :=
  wrapInt64 (retailerPoints receipt.Retailer + roundDollarPoints receipt.Total
    + quarterPoints receipt.Total + pairPoints receipt.Items + itemsPoints receipt.Items
    + datePoints receipt.PurchaseDate + timePoints receipt.PurchaseTime)

/-! ## The store and the two handlers -/

/-- A Go `map[string]V`: a finite map keyed by strings. -/
abbrev GoMap (V : Type) : Type := Finmap (fun _ : String => V)

/-- The struct `ReceiptsHandler`: the stored receipts and the cached points. The mutex is not
part of the state: a handler is run as one atomic step. -/
structure ReceiptsHandler where
  db : GoMap Receipt
  pointsCache : GoMap Int
  deriving DecidableEq

/-- The function `NewReceiptsHandler`: both maps empty. -/
def NewReceiptsHandler : ReceiptsHandler := ⟨∅, ∅⟩

/-- The payload handed to `ServerResponse`: the empty byte string, or the JSON encoding of a
`ProcessReceiptResponse` or of a `GetPointsResponse`, written here as the struct encoded. -/
inductive Payload where
  | empty : Payload
  | id (id : String) : Payload
  | points (points : Int) : Payload
  deriving DecidableEq, Repr

/-- What `ServerResponse` writes: status code and payload. -/
structure Response where
  statusCode : Nat
  payload : Payload
  deriving DecidableEq, Repr

/-- The method `GetPoints` for the route parameter `id` (empty when absent): the handler state
afterwards and the response. `jsoniter.Marshal` does not fail on a `GetPointsResponse`, so the
two 500 branches are not taken. -/
def GetPoints (rHandler : ReceiptsHandler) (id : String) : ReceiptsHandler × Response :=
  if id = "" then (rHandler, ⟨400, .empty⟩)
  else
    match rHandler.pointsCache.lookup id with
    | some cachedPoints => (rHandler, ⟨200, .points cachedPoints⟩)
    | none =>
      match rHandler.db.lookup id with
      | none => (rHandler, ⟨404, .empty⟩)
      | some receipt =>
        let points := CalculatePointsFromReceipt receipt
        ({ rHandler with pointsCache := rHandler.pointsCache.insert id points },
          ⟨200, .points points⟩)

/-- The method `ProcessReceipt` for a request body, with `id` the string `uuid.NewString`
returns in this call: the handler state afterwards and the response. `jsoniter.Marshal` does not
fail on a `ProcessReceiptResponse`, so the 500 branch is not taken. -/
def ProcessReceipt (rHandler : ReceiptsHandler) (body : Body) (id : String) :
    ReceiptsHandler × Response :=
  match ValidateReceipt body with
  | .error _ => (rHandler, ⟨400, .empty⟩)
  | .ok receipt => ({ rHandler with db := rHandler.db.insert id receipt }, ⟨200, .id id⟩)

/-- Go's `len` of a map: the number of its keys. -/
def mapLen {V : Type} (m : GoMap V) : Nat := m.keys.card

/-! ## Fixtures of `handler_test.go` -/

/-- The function `sampleReceipt` of the tests. -/
def sampleReceipt : Receipt :=
  { Retailer := "Target", PurchaseDate := "2022-04-11", PurchaseTime := "13:01",
    Items := [⟨"Gatorade", "22.90"⟩, ⟨"Food", "10.00"⟩], Total := "32.90", PointsEarned := 89 }

/-- The receipt of the test "Points earned for every criteria": the sample receipt with date,
time, descriptions and total replaced. -/
def everyCriteriaReceipt : Receipt :=
  { sampleReceipt with
    PurchaseDate := "2022-01-01", PurchaseTime := "15:00",
    Items := [⟨"abc", "22.90"⟩, ⟨"abcdef", "10.00"⟩], Total := "1.00" }

/-! ## Notions of the specification -/

/-- The base-10 number written by a list of digit characters: what the specification calls the
value in integer cents of a money string once its point is removed. -/
def decimalNat (cs : List Char) : Nat := cs.foldl (fun n c => 10 * n + digitVal c) 0

open Regex in
/-- The total rule of the specification, `^\d+\.\d{2}$`: one or more digits, a literal point,
two digits. -/
def specMoney : Regex := seq (plus digit) (seq (lit '.') (rep2 digit))

open Regex in
/-- The purchase date rule of the specification, `^[12]\d{3}-[01]\d-[0123]\d$`. -/
def specDate : Regex :=
  seq (cls (oneOf ['1', '2'])) (seq (rep3 digit) (seq (lit '-')
    (seq (cls (oneOf ['0', '1'])) (seq digit (seq (lit '-')
      (seq (cls (oneOf ['0', '1', '2', '3'])) digit))))))

/-- The price in integer cents as the specification defines it: the base-10 number left when the
points are removed from the price. -/
def priceInCents (price : String) : Nat := decimalNat (removePoints price.data)

/-- The item rule in the words of the specification, "for each item whose trimmed
`shortDescription` length is divisible by 3: add `ceil(priceInCents * 0.2 / 100)`", computed over
the rationals. The length is the one the code takes, the `len` of Go, a count of bytes. -/
def itemRule (item : ReceiptItem) : Int :=
  if byteLen (TrimSpace item.ShortDescription.data) % 3 = 0 then
    ⌈(priceInCents item.Price : ℚ) * (2 / 10) / 100⌉
  else 0

/-- The handler states reachable from the empty store of `NewReceiptsHandler` by a sequence of
`ProcessReceipt` requests (any body, any identifier drawn) and `GetPoints` requests (any
identifier asked). -/
inductive Reachable : ReceiptsHandler → Prop where
  | new : Reachable NewReceiptsHandler
  | processReceipt (rHandler : ReceiptsHandler) (body : Body) (id : String) :
      Reachable rHandler → Reachable (ProcessReceipt rHandler body id).1
  | getPoints (rHandler : ReceiptsHandler) (id : String) :
      Reachable rHandler → Reachable (GetPoints rHandler id).1

end Receipts

/-! # Theorems -/

namespace Receipts

/-! ## The float64 model: rounding -/

theorem bitLenAux_zero (fuel : Nat) : bitLenAux fuel 0 = 0 := by
  cases fuel <;> simp [bitLenAux]

theorem bitLenAux_spec (fuel n : Nat) (hn : 0 < n) (hfuel : n ≤ fuel) :
    1 ≤ bitLenAux fuel n ∧ 2 ^ (bitLenAux fuel n - 1) ≤ n ∧ n < 2 ^ bitLenAux fuel n := by
  induction fuel generalizing n with
  | zero => omega
  | succ fuel ih =>
    have hne : n ≠ 0 := by omega
    simp only [bitLenAux, hne, if_false]
    by_cases h2 : n / 2 = 0
    · have h1 : n = 1 := by omega
      rw [h2, bitLenAux_zero, h1]
      decide
    · obtain ⟨hb1, hlo, hhi⟩ := ih (n / 2) (by omega) (by omega)
      generalize bitLenAux fuel (n / 2) = b at hb1 hlo hhi
      obtain ⟨b', rfl⟩ : ∃ b', b = b' + 1 := ⟨b - 1, by omega⟩
      simp only [Nat.add_sub_cancel] at hlo ⊢
      rw [pow_succ] at hhi ⊢
      refine ⟨by omega, ?_, ?_⟩
      · omega
      · rw [pow_succ]; omega

theorem bitLen_spec (n : Nat) (hn : 0 < n) :
    1 ≤ bitLen n ∧ 2 ^ (bitLen n - 1) ≤ n ∧ n < 2 ^ bitLen n :=
  bitLenAux_spec n n hn (Nat.le_refl n)

theorem ilog2Ratio_eq (n d s : Nat) (hd : 0 < d) (hlo : 2 ^ 52 * d ≤ n * 2 ^ s)
    (hhi : n * 2 ^ s < 2 ^ 53 * d) : ilog2Ratio n d = 52 - (s : Int) := by
  have hn : 0 < n := by
    rcases Nat.eq_zero_or_pos n with h | h
    · rw [h, Nat.zero_mul] at hlo
      have : 0 < 2 ^ 52 * d := Nat.mul_pos (by norm_num) hd
      omega
    · exact h
  obtain ⟨ha1, halo, hahi⟩ := bitLen_spec n hn
  obtain ⟨hb1, hblo, hbhi⟩ := bitLen_spec d hd
  unfold ilog2Ratio
  generalize bitLen n = a at ha1 halo hahi ⊢
  generalize bitLen d = b at hb1 hblo hbhi ⊢
  obtain ⟨a', rfl⟩ : ∃ a', a = a' + 1 := ⟨a - 1, by omega⟩
  obtain ⟨b', rfl⟩ : ∃ b', b = b' + 1 := ⟨b - 1, by omega⟩
  simp only [Nat.add_sub_cancel] at halo hblo
  have hs : 0 < 2 ^ s := pow_pos (by norm_num) s
  have hk1 : a' + s < 53 + (b' + 1) := by
    have h1 : 2 ^ a' * 2 ^ s ≤ n * 2 ^ s := Nat.mul_le_mul_right _ halo
    have h2 : 2 ^ 53 * d < 2 ^ 53 * 2 ^ (b' + 1) :=
      Nat.mul_lt_mul_of_pos_left hbhi (by norm_num)
    have h3 : 2 ^ (a' + s) < 2 ^ (53 + (b' + 1)) := by
      rw [pow_add, pow_add 2 53]
      omega
    exact (Nat.pow_lt_pow_iff_right (by norm_num)).1 h3
  have hk2 : 52 + b' < a' + 1 + s := by
    have h1 : n * 2 ^ s < 2 ^ (a' + 1) * 2 ^ s := Nat.mul_lt_mul_of_pos_right hahi hs
    have h2 : 2 ^ 52 * 2 ^ b' ≤ 2 ^ 52 * d := Nat.mul_le_mul_left _ hblo
    have h3 : 2 ^ (52 + b') < 2 ^ (a' + 1 + s) := by
      rw [pow_add, pow_add 2 (a' + 1)]
      omega
    exact (Nat.pow_lt_pow_iff_right (by norm_num)).1 h3
  rcases Nat.lt_or_ge a' b' with hab | hab
  · -- the quotient is below one: `k < 0`
    obtain ⟨t, rfl⟩ : ∃ t, b' = a' + t := ⟨b' - a', by omega⟩
    have ht : 1 ≤ t := by omega
    have hkneg : ¬ (0 : Int) ≤ ((a' + 1 : Nat) : Int) - ((a' + t + 1 : Nat) : Int) := by
      push_cast; omega
    have htn : (-(((a' + 1 : Nat) : Int) - ((a' + t + 1 : Nat) : Int))).toNat = t := by
      push_cast; omega
    simp only [hkneg, if_false, htn]
    rcases (by omega : s = 52 + t ∨ s = 53 + t) with h | h
    · have habove : d ≤ n * 2 ^ t := by
        rw [h, pow_add, ← Nat.mul_assoc, Nat.mul_comm n, Nat.mul_assoc] at hlo
        exact Nat.le_of_mul_le_mul_left hlo (by norm_num)
      simp only [habove, decide_True, if_true]
      push_cast; omega
    · have habove : ¬ d ≤ n * 2 ^ t := by
        intro hc
        rw [h, pow_add, ← Nat.mul_assoc, Nat.mul_comm n, Nat.mul_assoc] at hhi
        have := Nat.mul_le_mul_left (2 ^ 53) hc
        omega
      simp only [habove, decide_False, Bool.false_eq_true, if_false]
      push_cast; omega
  · obtain ⟨t, rfl⟩ : ∃ t, a' = b' + t := ⟨a' - b', by omega⟩
    have hkpos : (0 : Int) ≤ ((b' + t + 1 : Nat) : Int) - ((b' + 1 : Nat) : Int) := by
      push_cast; omega
    have htn : (((b' + t + 1 : Nat) : Int) - ((b' + 1 : Nat) : Int)).toNat = t := by
      push_cast; omega
    simp only [hkpos, if_true, htn]
    rcases (by omega : t + s = 52 ∨ t + s = 53) with h | h
    · have habove : d * 2 ^ t ≤ n := by
        have e : 2 ^ 52 * d = d * 2 ^ t * 2 ^ s := by
          rw [Nat.mul_assoc, ← pow_add, h, Nat.mul_comm]
        rw [e] at hlo
        exact Nat.le_of_mul_le_mul_right hlo hs
      simp only [habove, decide_True, if_true]
      push_cast; omega
    · have habove : ¬ d * 2 ^ t ≤ n := by
        intro hc
        have e : 2 ^ 53 * d = d * 2 ^ t * 2 ^ s := by
          rw [Nat.mul_assoc, ← pow_add, h, Nat.mul_comm]
        rw [e] at hhi
        have := Nat.mul_le_mul_right (2 ^ s) hc
        omega
      simp only [habove, decide_False, Bool.false_eq_true, if_false]
      push_cast; omega

/-- The rounding step of `roundRatio`, for a quotient `n / d` below `2 ^ 52` and not
subnormal: with `s` the scale that brings `n / d * 2 ^ s` into `[2 ^ 52, 2 ^ 53)`, the result is
`m * 2 ^ (-s)` for an integer `m` within one half of `n / d * 2 ^ s`, and `m` is every integer
strictly within one half of it. -/
theorem roundRatio_of_scale (neg : Bool) (n d s : Nat) (hd : 0 < d) (hs1 : 1 ≤ s)
    (hs2 : s ≤ 1074) (hlo : 2 ^ 52 * d ≤ n * 2 ^ s) (hhi : n * 2 ^ s < 2 ^ 53 * d) :
    ∃ m, roundRatio neg n d = .fin neg m (-(s : Int))
      ∧ 2 * (m * d) ≤ 2 * (n * 2 ^ s) + d ∧ 2 * (n * 2 ^ s) ≤ 2 * (m * d) + d
      ∧ (∀ M, 2 * (M * d) < 2 * (n * 2 ^ s) + d → 2 * (n * 2 ^ s) < 2 * (M * d) + d →
          m = M) := by
  have hn : n ≠ 0 := by
    intro h
    rw [h, Nat.zero_mul] at hlo
    have : 0 < 2 ^ 52 * d := Nat.mul_pos (by norm_num) hd
    omega
  have he : max (ilog2Ratio n d - 52) (-1074) = -(s : Int) := by
    rw [ilog2Ratio_eq n d s hd hlo hhi]
    omega
  have hneg : ¬ (0 : Int) ≤ -(s : Int) := by omega
  have hsn : (- -(s : Int)).toNat = s := by omega
  have hq := Nat.div_add_mod (n * 2 ^ s) d
  have hr := Nat.mod_lt (n * 2 ^ s) hd
  have hqd : d * (n * 2 ^ s / d) = n * 2 ^ s / d * d := Nat.mul_comm _ _
  unfold roundRatio
  simp only [hn, if_false, he, hneg, hsn]
  generalize n * 2 ^ s / d = q at hq hqd ⊢
  generalize n * 2 ^ s % d = r at hq hr ⊢
  generalize n * 2 ^ s = num at hq ⊢
  have hover : (decide (971 < -(s : Int)) || decide (-(s : Int) = 971) &&
      decide ((if (decide (d < 2 * r) || decide (2 * r = d) && decide (q % 2 = 1)) = true
        then q + 1 else q) = 2 ^ 53)) = false := by
    have h1 : ¬ (971 < -(s : Int)) := by omega
    have h2 : ¬ (-(s : Int) = 971) := by omega
    simp [h1, h2]
  rw [hover]
  simp only [Bool.false_eq_true, if_false]
  refine ⟨_, rfl, ?_, ?_, ?_⟩
  · split_ifs with hc
    · simp only [Bool.or_eq_true, Bool.and_eq_true, decide_eq_true_eq] at hc
      rw [Nat.add_mul]
      omega
    · omega
  · split_ifs with hc
    · rw [Nat.add_mul]
      omega
    · simp only [Bool.or_eq_true, Bool.and_eq_true, decide_eq_true_eq, not_or] at hc
      omega
  · intro M h1 h2
    have hM : M = q ∨ M = q + 1 := by
      rcases Nat.lt_or_ge M q with hlt | hge
      · exfalso
        have := Nat.mul_le_mul_right d (Nat.succ_le_of_lt hlt)
        rw [Nat.succ_mul] at this
        omega
      · rcases Nat.lt_or_ge (q + 1) M with hgt | hle
        · exfalso
          have := Nat.mul_le_mul_right d (Nat.succ_le_of_lt hgt)
          rw [Nat.succ_mul, Nat.add_mul] at this
          omega
        · omega
    rcases hM with rfl | rfl
    · have hc : ¬ ((decide (d < 2 * r) || decide (2 * r = d) && decide (M % 2 = 1)) = true) := by
        simp only [Bool.or_eq_true, Bool.and_eq_true, decide_eq_true_eq, not_or]
        omega
      rw [if_neg hc]
    · have hc : (decide (d < 2 * r) || decide (2 * r = d) && decide (q % 2 = 1)) = true := by
        simp only [Bool.or_eq_true, Bool.and_eq_true, decide_eq_true_eq]
        left
        rw [Nat.add_mul] at h1
        omega
      rw [if_pos hc]

theorem exists_scale (n d : Nat) (hsmall : n < 2 ^ 52 * d)
    (hbig : d ≤ n * 2 ^ 1022) :
    ∃ s, 1 ≤ s ∧ s ≤ 1074 ∧ 2 ^ 52 * d ≤ n * 2 ^ s ∧ n * 2 ^ s < 2 ^ 53 * d := by
  have h1074 : 2 ^ 52 * d ≤ n * 2 ^ 1074 := by
    have e : n * 2 ^ 1074 = 2 ^ 52 * (n * 2 ^ 1022) := by
      rw [show (1074 : Nat) = 1022 + 52 from rfl, pow_add]
      ring
    rw [e]
    exact Nat.mul_le_mul_left _ hbig
  have hex : ∃ s, 2 ^ 52 * d ≤ n * 2 ^ s := ⟨1074, h1074⟩
  refine ⟨Nat.find hex, ?_, Nat.find_min' hex h1074, Nat.find_spec hex, ?_⟩
  · rcases Nat.eq_zero_or_pos (Nat.find hex) with h0 | hpos
    · exfalso
      have := Nat.find_spec hex
      rw [h0, pow_zero, Nat.mul_one] at this
      omega
    · exact hpos
  · have hpos : 1 ≤ Nat.find hex := by
      rcases Nat.eq_zero_or_pos (Nat.find hex) with h0 | hpos
      · exfalso
        have := Nat.find_spec hex
        rw [h0, pow_zero, Nat.mul_one] at this
        omega
      · exact hpos
    have hmin := Nat.find_min hex (Nat.sub_lt hpos Nat.one_pos)
    obtain ⟨t, ht⟩ : ∃ t, Nat.find hex = t + 1 := ⟨Nat.find hex - 1, by omega⟩
    rw [ht] at hmin ⊢
    simp only [Nat.add_sub_cancel] at hmin
    have e1 : n * 2 ^ (t + 1) = 2 * (n * 2 ^ t) := by rw [pow_succ]; ring
    have e2 : 2 ^ 53 * d = 2 * (2 ^ 52 * d) := by ring
    rw [e1, e2]
    omega

theorem ratio_le_of_scaled (m n D P : ℚ) (hD : 0 < D) (hP : 0 < P)
    (qlo : 4503599627370496 * D ≤ n * P) (qup : 2 * (m * D) ≤ 2 * (n * P) + D) :
    m / P ≤ n / D * (1 + 1 / 9007199254740992) := by
  rw [div_le_iff₀ hP]
  have e : n / D * (1 + 1 / 9007199254740992) * P
      = (n * P) * (1 + 1 / 9007199254740992) / D := by
    field_simp
    ring
  rw [e, le_div_iff₀ hD]
  linarith

theorem ratio_ge_of_scaled (m n D P : ℚ) (hD : 0 < D) (hP : 0 < P)
    (qlo : 4503599627370496 * D ≤ n * P) (qdown : 2 * (n * P) ≤ 2 * (m * D) + D) :
    n / D * (1 - 1 / 9007199254740992) ≤ m / P := by
  rw [le_div_iff₀ hP]
  have e : n / D * (1 - 1 / 9007199254740992) * P
      = (n * P) * (1 - 1 / 9007199254740992) / D := by
    field_simp
    ring
  rw [e, div_le_iff₀ hD]
  linarith

theorem scaled_near_integer (w n D P : ℚ) (hD : 0 < D) (hP : 0 < P)
    (qhi : n * P < 9007199254740992 * D) (hw1 : w ≤ n / D)
    (hw2 : n / D ≤ w * (1 + 1 / 18014398509481984)) :
    2 * (w * P * D) < 2 * (n * P) + D ∧ 2 * (n * P) < 2 * (w * P * D) + D := by
  rw [le_div_iff₀ hD] at hw1
  rw [div_le_iff₀ hD] at hw2
  have h1 : w * D * P ≤ n * P := mul_le_mul_of_nonneg_right hw1 hP.le
  have h2 : n * P ≤ w * (1 + 1 / 18014398509481984) * D * P :=
    mul_le_mul_of_nonneg_right hw2 hP.le
  have e1 : w * D * P = w * P * D := by ring
  have e2 : w * (1 + 1 / 18014398509481984) * D * P
      = w * P * D + w * P * D / 18014398509481984 := by ring
  rw [e1] at h1
  rw [e2] at h2
  constructor <;> linarith

/-- The rounding of `roundRatio`, for a quotient `n / d` below `2 ^ 52` and at least
`2 ^ -1022`: the result is a finite number `m / 2 ^ s` whose distance to `n / d` is at most
`n / d / 2 ^ 53`, and it is `w` itself when `n / d` lies between an integer `w` and
`w * (1 + 2 ^ -54)`. -/
theorem roundRatio_normal (neg : Bool) (n d : Nat) (hd : 0 < d)
    (hsmall : n < 2 ^ 52 * d) (hbig : d ≤ n * 2 ^ 1022) :
    ∃ m s : Nat, roundRatio neg n d = .fin neg m (-(s : Int)) ∧ 1 ≤ s ∧ s ≤ 1074
      ∧ 2 ^ 52 ≤ m ∧ m ≤ 2 ^ 53
      ∧ (m : ℚ) / 2 ^ s ≤ (n : ℚ) / d * (1 + 1 / 9007199254740992)
      ∧ (n : ℚ) / d * (1 - 1 / 9007199254740992) ≤ (m : ℚ) / 2 ^ s
      ∧ (∀ w : Nat, (w : ℚ) ≤ (n : ℚ) / d →
          (n : ℚ) / d ≤ w * (1 + 1 / 18014398509481984) → (m : ℚ) / 2 ^ s = w) := by
  obtain ⟨s, hs1, hs2, hlo, hhi⟩ := exists_scale n d hsmall hbig
  obtain ⟨m, hround, hup, hdown, hnear⟩ := roundRatio_of_scale neg n d s hd hs1 hs2 hlo hhi
  have hD : (0 : ℚ) < d := by exact_mod_cast hd
  have hP : (0 : ℚ) < 2 ^ s := by positivity
  have qlo : (4503599627370496 : ℚ) * d ≤ n * 2 ^ s := by
    have h : ((2 ^ 52 * d : Nat) : ℚ) ≤ ((n * 2 ^ s : Nat) : ℚ) := Nat.cast_le.2 hlo
    push_cast at h
    exact h
  have qhi : (n : ℚ) * 2 ^ s < 9007199254740992 * d := by
    have h : ((n * 2 ^ s : Nat) : ℚ) < ((2 ^ 53 * d : Nat) : ℚ) := Nat.cast_lt.2 hhi
    push_cast at h
    exact h
  have qup : 2 * ((m : ℚ) * d) ≤ 2 * (n * 2 ^ s) + d := by exact_mod_cast hup
  have qdown : 2 * ((n : ℚ) * 2 ^ s) ≤ 2 * (m * d) + d := by exact_mod_cast hdown
  refine ⟨m, s, hround, hs1, hs2, ?_, ?_, ratio_le_of_scaled _ _ _ _ hD hP qlo qup,
    ratio_ge_of_scaled _ _ _ _ hD hP qlo qdown, ?_⟩
  · -- 2 ^ 52 ≤ m
    have h : 2 * 2 ^ 52 * d ≤ (2 * m + 1) * d := by
      rw [Nat.add_mul, Nat.mul_assoc, Nat.mul_assoc, Nat.one_mul]
      omega
    have := Nat.le_of_mul_le_mul_right h hd
    omega
  · -- m ≤ 2 ^ 53
    have h : 2 * m * d < (2 * 2 ^ 53 + 1) * d := by
      rw [Nat.add_mul, Nat.mul_assoc, Nat.mul_assoc, Nat.one_mul]
      omega
    have := Nat.lt_of_mul_lt_mul_right h
    omega
  · intro w hw1 hw2
    obtain ⟨h1, h2⟩ := scaled_near_integer (w : ℚ) n d (2 ^ s) hD hP qhi hw1 hw2
    have hm : m = w * 2 ^ s := by
      apply hnear
      · have : ((2 * (w * 2 ^ s * d) : Nat) : ℚ) < ((2 * (n * 2 ^ s) + d : Nat) : ℚ) := by
          push_cast
          exact h1
        exact Nat.cast_lt.1 this
      · have : ((2 * (n * 2 ^ s) : Nat) : ℚ) < ((2 * (w * 2 ^ s * d) + d : Nat) : ℚ) := by
          push_cast
          exact h2
        exact Nat.cast_lt.1 this
    rw [hm]
    push_cast
    field_simp

/-! ## The float64 model: the item rule -/

theorem ceilDiv_eq (m P K : Nat) (h1 : K * P < m + P) (h2 : m ≤ K * P) :
    (m + P - 1) / P = K := by
  apply Nat.div_eq_of_lt_le
  · omega
  · rw [Nat.succ_mul]; omega

theorem two_pow_le_two_pow {a b : Nat} (h : a ≤ b) : 2 ^ a ≤ 2 ^ b :=
  Nat.pow_le_pow_right (by norm_num) h

theorem nat_eq_of_div_pow (m w s : Nat) (h : (m : ℚ) / 2 ^ s = w) : m = w * 2 ^ s := by
  have hP : (2 : ℚ) ^ s ≠ 0 := by positivity
  have h' : (m : ℚ) = w * 2 ^ s := by
    field_simp at h
    exact h
  exact_mod_cast h'

set_option maxRecDepth 100000 in
theorem roundRatio_one_fifth :
    roundRatio false 1 5 = .fin false 7205759403792794 (-55) := by decide

set_option maxRecDepth 100000 in
theorem itemArithmetic_zero :
    ((((roundRatio false 0 1).mul (roundRatio false 1 5)).div (.fin false 100 0)).ceil).toInt
      = ((0 + 499) / 500 : Nat) := by decide

/-- The float64 bounds of the item rule: with `y1` within `2 ^ -53` of `x` times the float64
nearest to 0.2 and `y2` within `2 ^ -53` of `y1 / 100`, and `x` below `2 ^ 51` not a multiple
of 500, `y2` lies strictly above `x / 500` rounded down and at most one above it. -/
theorem item_bounds (x k f y1 y2 : ℚ) (hxk : x = 500 * k + f) (hf1 : 1 ≤ f) (hf2 : f ≤ 499)
    (hx : x < 2251799813685248)
    (h1u : y1 ≤ x * (7205759403792794 / 36028797018963968) * (1 + 1 / 9007199254740992))
    (h1l : x * (7205759403792794 / 36028797018963968) * (1 - 1 / 9007199254740992) ≤ y1)
    (h2u : y2 ≤ y1 / 100 * (1 + 1 / 9007199254740992))
    (h2l : y1 / 100 * (1 - 1 / 9007199254740992) ≤ y2) :
    k < y2 ∧ y2 ≤ k + 1 := by
  constructor
  · have h : x * (7205759403792794 / 36028797018963968) * (1 - 1 / 9007199254740992) / 100
        * (1 - 1 / 9007199254740992) ≤ y1 / 100 * (1 - 1 / 9007199254740992) := by
      apply mul_le_mul_of_nonneg_right _ (by norm_num)
      exact div_le_div_of_nonneg_right h1l (by norm_num)
    have h' := le_trans h h2l
    linarith
  · have h : y1 / 100 * (1 + 1 / 9007199254740992)
        ≤ x * (7205759403792794 / 36028797018963968) * (1 + 1 / 9007199254740992) / 100
            * (1 + 1 / 9007199254740992) := by
      apply mul_le_mul_of_nonneg_right _ (by norm_num)
      exact div_le_div_of_nonneg_right h1u (by norm_num)
    have h' := le_trans h2u h
    linarith

/-- The arithmetic of the item rule in float64, for a price below `2 ^ 51` cents: parsing the
cents, multiplying by the float64 nearest to 0.2, dividing by 100, rounding up and converting to
`int` gives the cents divided by 500, rounded up. -/
theorem itemArithmetic_exact (x : Nat) (hx : x < 2 ^ 51) :
    ((((roundRatio false x 1).mul (roundRatio false 1 5)).div (.fin false 100 0)).ceil).toInt
      = ((x + 499) / 500 : Nat) := by
  rcases Nat.eq_zero_or_pos x with h0 | hpos
  · rw [h0]; exact itemArithmetic_zero
  have hxq0 : (0 : ℚ) ≤ x := Nat.cast_nonneg x
  have hxq51 : (x : ℚ) < 2251799813685248 := by
    have e : (2 : Nat) ^ 51 = 2251799813685248 := by norm_num
    rw [e] at hx
    exact_mod_cast hx
  -- parsing is exact
  have hbig0 : 1 ≤ x * 2 ^ 1022 := Nat.mul_pos hpos (pow_pos (by norm_num) _)
  have hsmall0 : x < 2 ^ 52 * 1 := by
    have : (2 : Nat) ^ 51 ≤ 2 ^ 52 := Nat.pow_le_pow_right (by norm_num) (by norm_num)
    omega
  obtain ⟨m0, s0, hr0, -, -, hm0lo, hm0hi, -, -, hex0⟩ :=
    roundRatio_normal false x 1 (by norm_num) hsmall0 hbig0
  have hy0 : (m0 : ℚ) / 2 ^ s0 = x := by
    apply hex0 x
    · simp
    · simp only [Nat.cast_one, div_one]
      linarith
  have hm0 : m0 = x * 2 ^ s0 := nat_eq_of_div_pow m0 x s0 hy0
  have hs0' : s0 ≤ 53 := by
    have h1 : 2 ^ s0 ≤ m0 := by
      rw [hm0]
      exact Nat.le_mul_of_pos_left _ hpos
    exact (Nat.pow_le_pow_iff_right (by norm_num)).1 (le_trans h1 hm0hi)
  -- the product with 0.2
  have hmul : (roundRatio false x 1).mul (roundRatio false 1 5)
      = roundRatio false (m0 * 7205759403792794) (2 ^ (s0 + 55)) := by
    rw [hr0, roundRatio_one_fifth]
    have hneg : ¬ (0 : Int) ≤ -(s0 : Int) + -55 := by omega
    have htn : (-(-(s0 : Int) + -55)).toNat = s0 + 55 := by omega
    simp only [F64.mul, roundDyadic, hneg, if_false, htn, Bool.xor_false]
  have hsmall1 : m0 * 7205759403792794 < 2 ^ 52 * 2 ^ (s0 + 55) := by
    rw [hm0]
    have h1 : x * 2 ^ s0 < 2 ^ 51 * 2 ^ s0 := Nat.mul_lt_mul_of_pos_right hx (by positivity)
    have h2 : x * 2 ^ s0 * 7205759403792794 ≤ 2 ^ 51 * 2 ^ s0 * 7205759403792794 :=
      Nat.mul_le_mul_right _ h1.le
    have h3 : 2 ^ 51 * 2 ^ s0 * 7205759403792794 < 2 ^ 51 * 2 ^ s0 * 2 ^ 56 :=
      Nat.mul_lt_mul_of_pos_left (by norm_num) (by positivity)
    have e : 2 ^ 52 * 2 ^ (s0 + 55) = 2 ^ 51 * 2 ^ s0 * 2 ^ 56 := by
      rw [pow_add]; ring
    rw [e]
    exact lt_of_le_of_lt h2 h3
  have hbig1 : 2 ^ (s0 + 55) ≤ m0 * 7205759403792794 * 2 ^ 1022 := by
    have h1 : 2 ^ (s0 + 55) ≤ 2 ^ 1022 :=
      two_pow_le_two_pow (le_trans (Nat.add_le_add_right hs0' 55) (by norm_num))
    have h2 : 1 ≤ m0 * 7205759403792794 :=
      Nat.mul_pos (lt_of_lt_of_le (by positivity) hm0lo) (by norm_num)
    calc 2 ^ (s0 + 55) ≤ 2 ^ 1022 := h1
      _ = 1 * 2 ^ 1022 := (Nat.one_mul _).symm
      _ ≤ m0 * 7205759403792794 * 2 ^ 1022 := Nat.mul_le_mul_right _ h2
  obtain ⟨m1, s1, hr1, -, -, hm1lo, hm1hi, h1u, h1l, hex1⟩ :=
    roundRatio_normal false (m0 * 7205759403792794) (2 ^ (s0 + 55)) (by positivity)
      hsmall1 hbig1
  have hv1 : ((m0 * 7205759403792794 : Nat) : ℚ) / ((2 ^ (s0 + 55) : Nat) : ℚ)
      = x * (7205759403792794 / 36028797018963968) := by
    rw [hm0]
    push_cast
    rw [pow_add]
    field_simp
    ring
  rw [hv1] at h1u h1l hex1
  have hP1 : (0 : ℚ) < 2 ^ s1 := by positivity
  have hxq1 : (1 : ℚ) ≤ x := by exact_mod_cast hpos
  have hs1' : s1 ≤ 56 := by
    have hm : (m1 : ℚ) ≤ 9007199254740992 := by
      have e : (2 : Nat) ^ 53 = 9007199254740992 := by norm_num
      rw [e] at hm1hi
      exact_mod_cast hm1hi
    have hy : (1 : ℚ) / 8 ≤ (m1 : ℚ) / 2 ^ s1 := by
      refine le_trans ?_ h1l
      linarith
    rw [le_div_iff₀ hP1] at hy
    have h : (2 : ℚ) ^ s1 ≤ 72057594037927936 := by linarith
    have h' : (2 : Nat) ^ s1 ≤ 2 ^ 56 := by
      have : ((2 ^ s1 : Nat) : ℚ) ≤ ((2 ^ 56 : Nat) : ℚ) := by
        push_cast
        exact h
      exact Nat.cast_le.1 this
    exact (Nat.pow_le_pow_iff_right (by norm_num)).1 h'
  -- the quotient by 100
  have hdiv : ((roundRatio false x 1).mul (roundRatio false 1 5)).div (.fin false 100 0)
      = roundRatio false m1 (100 * 2 ^ s1) := by
    rw [hmul, hr1]
    have h100 : ¬ ((100 : Nat) = 0) := by norm_num
    have ht1 : (-(s1 : Int) - 0).toNat = 0 := by omega
    have ht2 : (0 - -(s1 : Int)).toNat = s1 := by omega
    simp only [F64.div, h100, if_false, ht1, ht2, pow_zero, Nat.mul_one, Bool.xor_false]
  have hsmall2 : m1 < 2 ^ 52 * (100 * 2 ^ s1) := by
    have h1 : 1 ≤ 2 ^ s1 := Nat.one_le_two_pow
    have h2 : 2 ^ 52 * (100 * 1) ≤ 2 ^ 52 * (100 * 2 ^ s1) :=
      Nat.mul_le_mul_left _ (Nat.mul_le_mul_left _ h1)
    have h3 : 2 ^ 53 < 2 ^ 52 * (100 * 1) := by norm_num
    omega
  have hbig2 : 100 * 2 ^ s1 ≤ m1 * 2 ^ 1022 := by
    have h1 : 2 ^ s1 ≤ 2 ^ 56 := two_pow_le_two_pow hs1'
    have h2 : 2 ^ 52 * 2 ^ 1022 ≤ m1 * 2 ^ 1022 := Nat.mul_le_mul_right _ hm1lo
    have h3 : 100 * 2 ^ 56 ≤ 2 ^ 52 * 2 ^ 1022 :=
      Nat.mul_le_mul (by norm_num) (two_pow_le_two_pow (by norm_num))
    calc 100 * 2 ^ s1 ≤ 100 * 2 ^ 56 := Nat.mul_le_mul_left _ h1
      _ ≤ 2 ^ 52 * 2 ^ 1022 := h3
      _ ≤ m1 * 2 ^ 1022 := h2
  obtain ⟨m2, s2, hr2, hs2, -, -, hm2hi, h2u, h2l, hex2⟩ :=
    roundRatio_normal false m1 (100 * 2 ^ s1) (by positivity) hsmall2 hbig2
  have hv2 : ((m1 : Nat) : ℚ) / ((100 * 2 ^ s1 : Nat) : ℚ) = (m1 : ℚ) / 2 ^ s1 / 100 := by
    push_cast
    field_simp
    left
    ring
  rw [hv2] at h2u h2l hex2
  have hP2 : (0 : ℚ) < 2 ^ s2 := by positivity
  -- rounding up and converting
  have hsmallc : (m2 + 2 ^ s2 - 1) / 2 ^ s2 ≤ 2 ^ 53 := by
    apply Nat.div_le_of_le_mul
    have h1 : 1 ≤ 2 ^ s2 := Nat.one_le_two_pow
    have h2 : m2 * 1 ≤ 2 ^ 53 * 2 ^ s2 := Nat.mul_le_mul hm2hi h1
    have h3 : 2 ^ s2 * 2 ^ 53 = 2 ^ 53 * 2 ^ s2 := Nat.mul_comm _ _
    have h4 : 2 ^ s2 ≤ 2 ^ 53 * 2 ^ s2 := Nat.le_mul_of_pos_left _ (by positivity)
    omega
  have hfinal : ((((roundRatio false x 1).mul (roundRatio false 1 5)).div
      (.fin false 100 0)).ceil).toInt = ((m2 + 2 ^ s2 - 1) / 2 ^ s2 : Nat) := by
    rw [hdiv, hr2]
    have hneg : ¬ (0 : Int) ≤ -(s2 : Int) := by omega
    have htn : (- -(s2 : Int)).toNat = s2 := by omega
    have h1 : -(2 : Int) ^ 63 ≤ (((m2 + 2 ^ s2 - 1) / 2 ^ s2 : Nat) : Int) := by
      have : (0 : Int) ≤ (((m2 + 2 ^ s2 - 1) / 2 ^ s2 : Nat) : Int) := Int.natCast_nonneg _
      have : -(2 : Int) ^ 63 ≤ 0 := by norm_num
      omega
    have h2 : (((m2 + 2 ^ s2 - 1) / 2 ^ s2 : Nat) : Int) < 2 ^ 63 := by
      have h : (((m2 + 2 ^ s2 - 1) / 2 ^ s2 : Nat) : Int) ≤ ((2 ^ 53 : Nat) : Int) :=
        Int.ofNat_le.2 hsmallc
      have : ((2 ^ 53 : Nat) : Int) < 2 ^ 63 := by norm_num
      omega
    simp only [F64.ceil, hneg, if_false, htn, Bool.false_eq_true, F64.toInt, le_refl, if_true,
      Int.toNat_zero, pow_zero, Nat.mul_one]
    rw [if_pos ⟨h1, h2⟩]
  rw [hfinal]
  congr 1
  -- the value is the exact quotient rounded up
  have hmod := Nat.div_add_mod x 500
  have hlt := Nat.mod_lt x (by norm_num : 0 < 500)
  generalize x / 500 = k at hmod
  generalize x % 500 = f at hmod hlt
  have hxk : (x : ℚ) = 500 * k + f := by exact_mod_cast hmod.symm
  have hkq : (0 : ℚ) ≤ k := Nat.cast_nonneg k
  rcases Nat.eq_zero_or_pos f with hf | hf
  · have hk : (x + 499) / 500 = k := by omega
    rw [hk]
    have hy1 : (m1 : ℚ) / 2 ^ s1 = ((100 * k : Nat) : ℚ) := by
      apply hex1
      · push_cast; rw [hxk, hf]; push_cast; linarith
      · push_cast; rw [hxk, hf]; push_cast; linarith
    have hy2 : (m2 : ℚ) / 2 ^ s2 = ((k : Nat) : ℚ) := by
      apply hex2
      · rw [hy1]; push_cast; linarith
      · rw [hy1]; push_cast; linarith
    have hm2 : m2 = k * 2 ^ s2 := nat_eq_of_div_pow m2 k s2 hy2
    have hpos2 : 0 < 2 ^ s2 := by positivity
    apply ceilDiv_eq
    · omega
    · omega
  · have hk : (x + 499) / 500 = k + 1 := by omega
    rw [hk]
    have hf1 : (1 : ℚ) ≤ f := by exact_mod_cast hf
    have hf2 : (f : ℚ) ≤ 499 := by
      have : f ≤ 499 := by omega
      exact_mod_cast this
    obtain ⟨hlow, hhigh⟩ := item_bounds x k f ((m1 : ℚ) / 2 ^ s1) ((m2 : ℚ) / 2 ^ s2) hxk hf1
      hf2 hxq51 h1u h1l h2u h2l
    rw [lt_div_iff₀ hP2] at hlow
    rw [div_le_iff₀ hP2] at hhigh
    have hlow' : k * 2 ^ s2 < m2 := by exact_mod_cast hlow
    have hhigh' : m2 ≤ (k + 1) * 2 ^ s2 := by exact_mod_cast hhigh
    apply ceilDiv_eq
    · rw [Nat.succ_mul]; omega
    · exact hhigh'

/-! ## `ParseFloat` on a string of digits -/

theorem isDigit_toNat {c : Char} (h : isDigit c = true) : 48 ≤ c.toNat ∧ c.toNat ≤ 57 := by
  simp only [isDigit, Bool.and_eq_true, decide_eq_true_eq] at h
  exact h

theorem asciiLower_digit {c : Char} (h : isDigit c = true) : asciiLower c = c.toNat := by
  have hc := isDigit_toNat h
  unfold asciiLower
  rw [if_neg (by omega)]

theorem readMant_digits (cs : List Char) (st : MantState) (hcs : ∀ c ∈ cs, isDigit c = true)
    (hdot : st.sawdot = false) :
    readMant false cs st
      = (⟨cs.foldl (fun n c => 10 * n + digitVal c) st.mant, st.frac, false,
          st.sawdigits || !cs.isEmpty, st.underscores⟩, []) := by
  induction cs generalizing st with
  | nil =>
    cases st
    simp only at hdot
    simp [readMant, hdot]
  | cons c cs ih =>
    have hc : isDigit c = true := hcs c (List.mem_cons_self c cs)
    have hc' := isDigit_toNat hc
    have h95 : (c.toNat == 95) = false := by simp only [beq_eq_false_iff_ne, ne_eq]; omega
    have h46 : (c.toNat == 46) = false := by simp only [beq_eq_false_iff_ne, ne_eq]; omega
    rw [readMant]
    simp only [h95, h46, hc, Bool.false_eq_true, if_false, if_true, hdot]
    rw [ih _ (fun d hd => hcs d (List.mem_cons_of_mem c hd)) rfl]
    simp [Nat.mul_comm]

theorem specialFloat_digits (c : Char) (rest : List Char) (hc : isDigit c = true) :
    specialFloat (c :: rest) = none := by
  have hc' := isDigit_toNat hc
  have hl := asciiLower_digit hc
  have h43 : (c.toNat == 43) = false := by simp only [beq_eq_false_iff_ne, ne_eq]; omega
  have h45 : (c.toNat == 45) = false := by simp only [beq_eq_false_iff_ne, ne_eq]; omega
  have h105 : ¬ (c.toNat = 105) := by omega
  have h110 : ¬ (c.toNat = 110) := by omega
  simp [specialFloat, h43, h45, hl, h105, h110]

theorem readFloat_digits (cs : List Char) (hne : cs ≠ []) (hcs : ∀ c ∈ cs, isDigit c = true) :
    readFloat cs = some ⟨false, false, decimalNat cs, 0, 0⟩ := by
  cases cs with
  | nil => exact absurd rfl hne
  | cons c rest =>
    have hc : isDigit c = true := hcs c (List.mem_cons_self c rest)
    have hc' := isDigit_toNat hc
    have h43 : (c.toNat == 43) = false := by simp only [beq_eq_false_iff_ne, ne_eq]; omega
    have h45 : (c.toNat == 45) = false := by simp only [beq_eq_false_iff_ne, ne_eq]; omega
    have hhex : (match c :: rest with
        | a :: b :: _ :: _ => a.toNat == 48 && asciiLower b == 120
        | _ => false) = false := by
      match rest, hcs with
      | [], _ => rfl
      | [_], _ => rfl
      | b :: _ :: _, hcs =>
        have hb : isDigit b = true := hcs b (by simp)
        have hb' := isDigit_toNat hb
        have hl := asciiLower_digit hb
        have : (asciiLower b == 120) = false := by
          simp only [beq_eq_false_iff_ne, ne_eq]; omega
        simp only [this, Bool.and_false]
    have hm := readMant_digits (c :: rest) ⟨0, 0, false, false, false⟩ hcs rfl
    simp only [readFloat, h43, h45, Bool.or_self, Bool.false_eq_true, if_false, hhex, hm]
    simp [finishFloat, decimalNat]

/-- On a non-empty string of decimal digits `ParseFloat` returns the float64 nearest to the
number the digits write. -/
theorem ParseFloat_digits (cs : List Char) (hne : cs ≠ []) (hcs : ∀ c ∈ cs, isDigit c = true) :
    (ParseFloat cs).1 = roundRatio false (decimalNat cs) 1 := by
  have hs : specialFloat cs = none := by
    cases cs with
    | nil => exact absurd rfl hne
    | cons c rest => exact specialFloat_digits c rest (hcs c (List.mem_cons_self c rest))
  have hv : FloatText.value ⟨false, false, decimalNat cs, 0, 0⟩
      = roundRatio false (decimalNat cs) 1 := by
    simp [FloatText.value]
  unfold ParseFloat
  rw [hs, readFloat_digits cs hne hcs]
  simp only [hv]
  cases roundRatio false (decimalNat cs) 1 <;> rfl

set_option maxRecDepth 100000

/-! ## The derivative matcher -/

namespace Regex

theorem matchChars_nothing (s : List Char) : matchChars nothing s = false := by
  induction s with
  | nil => rfl
  | cons c cs ih => simpa [matchChars, deriv] using ih

theorem matchChars_empty (s : List Char) : matchChars empty s = decide (s = []) := by
  cases s with
  | nil => rfl
  | cons c cs => simp [matchChars, deriv, matchChars_nothing]

theorem matchChars_alt (a b : Regex) (s : List Char) :
    matchChars (alt a b) s = (matchChars a s || matchChars b s) := by
  induction s generalizing a b with
  | nil => rfl
  | cons c cs ih => simp only [matchChars, deriv, ih]

theorem matchChars_cls_single (p : Char → Bool) (c : Char) : matchChars (cls p) [c] = p c := by
  by_cases h : p c = true <;> simp [matchChars, deriv, h, nullable]

theorem matchChars_cls_nil (p : Char → Bool) : matchChars (cls p) [] = false := rfl

theorem matchChars_cls_long (p : Char → Bool) (c d : Char) (s : List Char) :
    matchChars (cls p) (c :: d :: s) = false := by
  by_cases h : p c = true <;> simp [matchChars, deriv, h, matchChars_nothing]

/-- A concatenation matches exactly the texts that split into a match of each part. -/
theorem matchChars_seq_iff (a b : Regex) (s : List Char) :
    matchChars (seq a b) s = true ↔
      ∃ s1 s2, s = s1 ++ s2 ∧ matchChars a s1 = true ∧ matchChars b s2 = true := by
  induction s generalizing a with
  | nil =>
    constructor
    · intro h
      simp only [matchChars, nullable, Bool.and_eq_true] at h
      exact ⟨[], [], rfl, h.1, h.2⟩
    · rintro ⟨s1, s2, hs, h1, h2⟩
      have h := List.append_eq_nil.1 hs.symm
      rw [h.1] at h1
      rw [h.2] at h2
      simp only [matchChars, nullable, Bool.and_eq_true]
      exact ⟨h1, h2⟩
  | cons c cs ih =>
    have hstep : matchChars (seq (deriv a c) b) cs = true ↔
        ∃ t1 s2, c :: cs = (c :: t1) ++ s2 ∧ matchChars a (c :: t1) = true
          ∧ matchChars b s2 = true := by
      rw [ih]
      constructor
      · rintro ⟨t1, s2, hs, h1, h2⟩
        exact ⟨t1, s2, by rw [hs]; rfl, h1, h2⟩
      · rintro ⟨t1, s2, hs, h1, h2⟩
        exact ⟨t1, s2, by simpa using hs, h1, h2⟩
    by_cases hn : nullable a = true
    · have hd : matchChars (seq a b) (c :: cs)
          = (matchChars (seq (deriv a c) b) cs || matchChars (deriv b c) cs) := by
        simp only [matchChars, deriv, hn, if_true, matchChars_alt]
      rw [hd, Bool.or_eq_true, hstep]
      constructor
      · rintro (⟨t1, s2, hs, h1, h2⟩ | h)
        · exact ⟨c :: t1, s2, hs, h1, h2⟩
        · exact ⟨[], c :: cs, rfl, hn, h⟩
      · rintro ⟨s1, s2, hs, h1, h2⟩
        cases s1 with
        | nil =>
          right
          simp only [List.nil_append] at hs
          rw [← hs] at h2
          exact h2
        | cons d t1 =>
          left
          have hcd : c = d := by
            simp only [List.cons_append, List.cons.injEq] at hs
            exact hs.1
          subst hcd
          exact ⟨t1, s2, hs, h1, h2⟩
    · have hd : matchChars (seq a b) (c :: cs) = matchChars (seq (deriv a c) b) cs := by
        simp only [matchChars, deriv, hn, if_false]
        rfl
      rw [hd, hstep]
      constructor
      · rintro ⟨t1, s2, hs, h1, h2⟩
        exact ⟨c :: t1, s2, hs, h1, h2⟩
      · rintro ⟨s1, s2, hs, h1, h2⟩
        cases s1 with
        | nil => exact absurd h1 hn
        | cons d t1 =>
          have hcd : c = d := by
            simp only [List.cons_append, List.cons.injEq] at hs
            exact hs.1
          subst hcd
          exact ⟨t1, s2, hs, h1, h2⟩

theorem matchChars_cls_seq_nil (p : Char → Bool) (r : Regex) :
    matchChars (seq (cls p) r) [] = false := rfl

/-- A class followed by `r` reads one character of the class and then `r`. -/
theorem matchChars_cls_seq_cons (p : Char → Bool) (r : Regex) (c : Char) (cs : List Char) :
    matchChars (seq (cls p) r) (c :: cs) = (p c && matchChars r cs) := by
  rw [Bool.eq_iff_iff, matchChars_seq_iff, Bool.and_eq_true]
  constructor
  · rintro ⟨s1, s2, hs, h1, h2⟩
    match s1, h1, hs with
    | [], h1, _ => simp [matchChars_cls_nil] at h1
    | [d], h1, hs =>
      simp only [List.singleton_append, List.cons.injEq] at hs
      rw [matchChars_cls_single] at h1
      rw [hs.1, hs.2]
      exact ⟨h1, h2⟩
    | d :: e :: t, h1, _ => simp [matchChars_cls_long] at h1
  · rintro ⟨h1, h2⟩
    exact ⟨[c], cs, rfl, by rw [matchChars_cls_single]; exact h1, h2⟩

/-- The star of a class matches the texts made of characters of the class. -/
theorem matchChars_star_cls (p : Char → Bool) (s : List Char) :
    matchChars (star (cls p)) s = s.all p := by
  induction s with
  | nil => rfl
  | cons c cs ih =>
    have h : matchChars (star (cls p)) (c :: cs) = matchChars (seq (cls p) (star (cls p))) (c :: cs) := by
      simp only [matchChars, deriv, nullable, Bool.false_eq_true, if_false]
    rw [h, matchChars_cls_seq_cons, ih, List.all_cons]

/-- The pattern `[class]+` matches the non-empty texts made of characters of the class. -/
theorem matchChars_plus_cls (p : Char → Bool) (s : List Char) :
    matchChars (plus (cls p)) s = (!s.isEmpty && s.all p) := by
  cases s with
  | nil => rfl
  | cons c cs => rw [plus, matchChars_cls_seq_cons, matchChars_star_cls]; rfl

end Regex

/-- What the date pattern accepts: exactly the texts of ten characters whose first is `1`, `2`
or a comma, whose sixth is `0`, `1` or a comma, whose ninth is `0` to `3` or a comma, with `-`
in the fifth and eighth place and digits elsewhere. -/
theorem validDate_MatchString_iff (s : String) :
    validDate.MatchString s = true ↔
      ∃ y1 y2 y3 y4 m1 m2 d1 d2 : Char,
        s.data = [y1, y2, y3, y4, '-', m1, m2, '-', d1, d2]
          ∧ (y1 = '1' ∨ y1 = '2' ∨ y1 = ',') ∧ isDigit y2 = true ∧ isDigit y3 = true
          ∧ isDigit y4 = true ∧ (m1 = '0' ∨ m1 = '1' ∨ m1 = ',') ∧ isDigit m2 = true
          ∧ (d1 = '0' ∨ d1 = '1' ∨ d1 = '2' ∨ d1 = '3' ∨ d1 = ',') ∧ isDigit d2 = true := by
  have hassoc : ∀ (a b c r : Regex) (t : List Char),
      Regex.matchChars (Regex.seq (Regex.seq a (Regex.seq b c)) r) t
        = Regex.matchChars (Regex.seq a (Regex.seq b (Regex.seq c r))) t := by
    intro a b c r t
    rw [Bool.eq_iff_iff]
    simp only [Regex.matchChars_seq_iff]
    constructor
    · rintro ⟨s1, s2, rfl, ⟨u1, u2, rfl, hu1, v1, v2, rfl, hv1, hv2⟩, h2⟩
      exact ⟨u1, v1 ++ (v2 ++ s2), by simp, hu1, v1, v2 ++ s2, rfl, hv1, v2, s2, rfl, hv2, h2⟩
    · rintro ⟨u1, s2, rfl, hu1, v1, s3, rfl, hv1, v2, s4, rfl, hv2, h2⟩
      exact ⟨u1 ++ (v1 ++ v2), s4, by simp, ⟨u1, v1 ++ v2, rfl, hu1, v1, v2, rfl, hv1, hv2⟩, h2⟩
  have hchar : ∀ c d : Char, (d.toNat == c.toNat) = true ↔ d = c := by
    intro c d
    rw [beq_iff_eq]
    constructor
    · intro h
      exact Char.ext (UInt32.ext (by simpa [Char.toNat] using h))
    · intro h; rw [h]
  unfold Regex.MatchString validDate Regex.rep3 Regex.digit Regex.lit
  constructor
  · intro h
    rw [Regex.matchChars_seq_iff] at h
    obtain ⟨s1, s2, hs, h1, h2⟩ := h
    rw [hassoc] at h2
    match s1, h1, hs with
    | [], h1, _ => simp [Regex.matchChars_cls_nil] at h1
    | _ :: _ :: _, h1, _ => simp [Regex.matchChars_cls_long] at h1
    | [y1], h1, hs =>
      rw [Regex.matchChars_cls_single] at h1
      match s2, h2, hs with
      | [y2, y3, y4, s5, m1, m2, s8, d1, d2], h2, hs =>
        simp only [Regex.matchChars_cls_seq_cons, Regex.matchChars_cls_single,
          Bool.and_eq_true, hchar] at h2
        obtain ⟨hy2, hy3, hy4, h5, hm1, hm2, h8, hd1, hd2⟩ := h2
        subst h5 h8
        refine ⟨y1, y2, y3, y4, m1, m2, d1, d2, hs, ?_, hy2, hy3, hy4, ?_, hm2, ?_, hd2⟩
        · simp only [oneOf, List.any_cons, List.any_nil, Bool.or_false, Bool.or_eq_true,
            hchar] at h1
          rcases h1 with h | h | h <;> subst h <;> simp
        · simp only [oneOf, List.any_cons, List.any_nil, Bool.or_false, Bool.or_eq_true,
            hchar] at hm1
          rcases hm1 with h | h | h <;> subst h <;> simp
        · simp only [oneOf, List.any_cons, List.any_nil, Bool.or_false, Bool.or_eq_true,
            hchar] at hd1
          rcases hd1 with h | h | h | h | h | h | h <;> subst h <;> simp
      | [], h2, _ => simp [Regex.matchChars_cls_seq_nil] at h2
      | [_], h2, _ =>
        simp [Regex.matchChars_cls_seq_cons, Regex.matchChars_cls_seq_nil] at h2
      | [_, _], h2, _ =>
        simp [Regex.matchChars_cls_seq_cons, Regex.matchChars_cls_seq_nil] at h2
      | [_, _, _], h2, _ =>
        simp [Regex.matchChars_cls_seq_cons, Regex.matchChars_cls_seq_nil] at h2
      | [_, _, _, _], h2, _ =>
        simp [Regex.matchChars_cls_seq_cons, Regex.matchChars_cls_seq_nil] at h2
      | [_, _, _, _, _], h2, _ =>
        simp [Regex.matchChars_cls_seq_cons, Regex.matchChars_cls_seq_nil] at h2
      | [_, _, _, _, _, _], h2, _ =>
        simp [Regex.matchChars_cls_seq_cons, Regex.matchChars_cls_seq_nil] at h2
      | [_, _, _, _, _, _, _], h2, _ =>
        simp [Regex.matchChars_cls_seq_cons, Regex.matchChars_cls_seq_nil] at h2
      | [_, _, _, _, _, _, _, _], h2, _ =>
        simp [Regex.matchChars_cls_seq_cons, Regex.matchChars_cls_seq_nil,
          Regex.matchChars_cls_nil] at h2
      | _ :: _ :: _ :: _ :: _ :: _ :: _ :: _ :: _ :: _ :: _, h2, _ =>
        simp [Regex.matchChars_cls_seq_cons, Regex.matchChars_cls_long] at h2
  · rintro ⟨y1, y2, y3, y4, m1, m2, d1, d2, hs, hy1, hy2, hy3, hy4, hm1, hm2, hd1, hd2⟩
    rw [hs, Regex.matchChars_cls_seq_cons, hassoc]
    simp only [Regex.matchChars_cls_seq_cons, Regex.matchChars_cls_single, Bool.and_eq_true,
      hchar, hy2, hy3, hy4, hm2, hd2, and_true, true_and]
    refine ⟨?_, ?_, ?_⟩
    · rcases hy1 with h | h | h <;> subst h <;> decide
    · rcases hm1 with h | h | h <;> subst h <;> decide
    · rcases hd1 with h | h | h | h | h <;> subst h <;> decide

/-- What the money pattern accepts: exactly the texts made of one or more digits, then any one
character other than a newline, then two digits. -/
theorem validMoney_MatchString_iff (s : String) :
    validMoney.MatchString s = true ↔
      ∃ (ds : List Char) (c d1 d2 : Char),
        s.data = ds ++ [c, d1, d2] ∧ ds ≠ [] ∧ (∀ x ∈ ds, isDigit x = true)
          ∧ c.toNat ≠ 10 ∧ isDigit d1 = true ∧ isDigit d2 = true := by
  unfold Regex.MatchString validMoney Regex.rep2 Regex.digit Regex.anyChar
  rw [Regex.matchChars_seq_iff]
  constructor
  · rintro ⟨s1, s2, hs, h1, h2⟩
    rw [Regex.matchChars_plus_cls, Bool.and_eq_true] at h1
    match s2, h2 with
    | [c, d1, d2], h2 =>
      simp only [Regex.matchChars_cls_seq_cons, Regex.matchChars_cls_single,
        Bool.and_eq_true, bne_iff_ne, ne_eq] at h2
      refine ⟨s1, c, d1, d2, hs, ?_, ?_, h2.1, h2.2.1, h2.2.2⟩
      · intro h; rw [h] at h1; simp at h1
      · exact List.all_eq_true.1 h1.2
    | [], h2 => simp [Regex.matchChars_cls_seq_nil] at h2
    | [_], h2 => simp [Regex.matchChars_cls_seq_cons, Regex.matchChars_cls_seq_nil] at h2
    | [_, _], h2 =>
      simp [Regex.matchChars_cls_seq_cons, Regex.matchChars_cls_seq_nil,
        Regex.matchChars_cls_nil] at h2
    | _ :: _ :: _ :: _ :: _, h2 =>
      simp [Regex.matchChars_cls_seq_cons, Regex.matchChars_cls_long] at h2
  · rintro ⟨ds, c, d1, d2, hs, hne, hds, hc, h1, h2⟩
    refine ⟨ds, [c, d1, d2], hs, ?_, ?_⟩
    · rw [Regex.matchChars_plus_cls, Bool.and_eq_true]
      refine ⟨?_, List.all_eq_true.2 hds⟩
      cases ds with
      | nil => exact absurd rfl hne
      | cons _ _ => rfl
    · simp only [Regex.matchChars_cls_seq_cons, Regex.matchChars_cls_single, Bool.and_eq_true,
        bne_iff_ne, ne_eq]
      exact ⟨hc, h1, h2⟩

/-! ## Scoring of the two test receipts -/

/-- C1, code bug. On the sample receipt of the tests (retailer "Target", date "2022-04-11", time
"13:01", items Gatorade 22.90 and Food 10.00, total "32.90") `CalculatePointsFromReceipt`
returns 11, not the 17 its own test asserts: 6 retailer points and 5 for the item pair, and
nothing from the date rule, which reads the month (April, even) where its comment and the test
mean the day (11, odd). -/
theorem C1_sampleReceipt_scores_11 :
    CalculatePointsFromReceipt sampleReceipt = 11
      ∧ retailerPoints sampleReceipt.Retailer = 6
      ∧ roundDollarPoints sampleReceipt.Total = 0
      ∧ quarterPoints sampleReceipt.Total = 0
      ∧ pairPoints sampleReceipt.Items = 5
      ∧ itemsPoints sampleReceipt.Items = 0
      ∧ dateMonth sampleReceipt.PurchaseDate.data = 4
      ∧ datePoints sampleReceipt.PurchaseDate = 0
      ∧ timePoints sampleReceipt.PurchaseTime = 0 := by
  decide

/-- C2. On the receipt of the test "Points earned for every criteria" (retailer "Target", date
"2022-01-01", time "15:00", items abc 22.90 and abcdef 10.00, total "1.00")
`CalculatePointsFromReceipt` returns 109, and every rule contributes: 6 retailer, 50 round
dollar, 25 multiple of 0.25, 5 item pair, 5 and 2 for the two items, 6 date, 10 time window. -/
theorem C2_everyCriteriaReceipt_scores_109 :
    CalculatePointsFromReceipt everyCriteriaReceipt = 109
      ∧ retailerPoints everyCriteriaReceipt.Retailer = 6
      ∧ roundDollarPoints everyCriteriaReceipt.Total = 50
      ∧ quarterPoints everyCriteriaReceipt.Total = 25
      ∧ pairPoints everyCriteriaReceipt.Items = 5
      ∧ everyCriteriaReceipt.Items.map itemPoints = [5, 2]
      ∧ datePoints everyCriteriaReceipt.PurchaseDate = 6
      ∧ timePoints everyCriteriaReceipt.PurchaseTime = 10 := by
  decide

/-! ## What the money and date patterns accept -/

/-- C3, code bug. `ValidateReceipt` accepts the sample receipt with total "3290", which has no
decimal point, with total "32x90", which has a letter in place of the point, and with the
item price "22x90": the `.` of the money pattern `^\d+.\d{2}$` is unescaped and matches any
character but a newline. -/
theorem C3_money_without_point_is_accepted :
    ValidateReceipt (.decoded { sampleReceipt with Total := "3290" })
        = .ok { sampleReceipt with Total := "3290" }
      ∧ ValidateReceipt (.decoded { sampleReceipt with Total := "32x90" })
        = .ok { sampleReceipt with Total := "32x90" }
      ∧ ValidateReceipt (.decoded { sampleReceipt with
            Items := [⟨"Gatorade", "22x90"⟩, ⟨"Food", "10.00"⟩] })
        = .ok { sampleReceipt with Items := [⟨"Gatorade", "22x90"⟩, ⟨"Food", "10.00"⟩] }
      ∧ validMoney.MatchString "3290" = true
      ∧ validMoney.MatchString "32x90" = true := by
  refine ⟨rfl, rfl, rfl, ?_, ?_⟩ <;> decide

/-- C4, code bug. `ValidateReceipt` accepts the sample receipt with purchase date ",022-04-11",
"2022-,4-11" and "2022-04-,1": the bracket expressions `[1,2]`, `[0,1]` and `[0,1,2,3]` of the
date pattern list the comma as a member, so a comma passes in the first, sixth and ninth
position. -/
theorem C4_date_with_comma_is_accepted :
    ValidateReceipt (.decoded { sampleReceipt with PurchaseDate := ",022-04-11" })
        = .ok { sampleReceipt with PurchaseDate := ",022-04-11" }
      ∧ ValidateReceipt (.decoded { sampleReceipt with PurchaseDate := "2022-,4-11" })
        = .ok { sampleReceipt with PurchaseDate := "2022-,4-11" }
      ∧ ValidateReceipt (.decoded { sampleReceipt with PurchaseDate := "2022-04-,1" })
        = .ok { sampleReceipt with PurchaseDate := "2022-04-,1" }
      ∧ validDate.MatchString ",022-04-11" = true := by
  refine ⟨rfl, rfl, rfl, ?_⟩; decide

/-! ## Helper lemmas on the validator and the maps -/

theorem itemsValid_eq_false_iff (items : List ReceiptItem) :
    itemsValid items = false ↔
      ∃ item ∈ items, validDescription.MatchString item.ShortDescription = false
        ∨ validMoney.MatchString item.Price = false := by
  induction items with
  | nil => simp [itemsValid]
  | cons item rest ih =>
    by_cases hd : validDescription.MatchString item.ShortDescription = true <;>
      by_cases hp : validMoney.MatchString item.Price = true <;>
      simp [itemsValid, hd, hp, ih]

theorem ValidateReceipt_decoded_ok_iff (r receipt : Receipt) :
    ValidateReceipt (.decoded r) = .ok receipt ↔
      receipt = r ∧ validRetailer.MatchString r.Retailer = true
        ∧ validDate.MatchString r.PurchaseDate = true
        ∧ validTime.MatchString r.PurchaseTime = true
        ∧ validMoney.MatchString r.Total = true ∧ itemsValid r.Items = true := by
  unfold ValidateReceipt
  by_cases h1 : validRetailer.MatchString r.Retailer = true <;>
    by_cases h2 : validDate.MatchString r.PurchaseDate = true <;>
    by_cases h3 : validTime.MatchString r.PurchaseTime = true <;>
    by_cases h4 : validMoney.MatchString r.Total = true <;>
    by_cases h5 : itemsValid r.Items = true <;>
    simp [h1, h2, h3, h4, h5, eq_comm]

theorem ValidateReceipt_error_or_ok (body : Body) :
    (∃ e, ValidateReceipt body = .error e) ∨ (∃ receipt, ValidateReceipt body = .ok receipt) := by
  cases h : ValidateReceipt body with
  | error e => exact Or.inl ⟨e, rfl⟩
  | ok receipt => exact Or.inr ⟨receipt, rfl⟩

theorem ValidateReceipt_ok_decoded {body : Body} {receipt : Receipt}
    (h : ValidateReceipt body = .ok receipt) : body = .decoded receipt := by
  cases body with
  | readError => simp [ValidateReceipt] at h
  | unmarshalError => simp [ValidateReceipt] at h
  | decoded r => rw [((ValidateReceipt_decoded_ok_iff r receipt).1 h).1]

theorem ProcessReceipt_of_error {body : Body} {e : String} (rHandler : ReceiptsHandler)
    (id : String) (h : ValidateReceipt body = .error e) :
    ProcessReceipt rHandler body id = (rHandler, ⟨400, .empty⟩) := by
  simp [ProcessReceipt, h]

theorem ProcessReceipt_of_ok {body : Body} {receipt : Receipt} (rHandler : ReceiptsHandler)
    (id : String) (h : ValidateReceipt body = .ok receipt) :
    ProcessReceipt rHandler body id
      = ({ rHandler with db := rHandler.db.insert id receipt }, ⟨200, .id id⟩) := by
  simp [ProcessReceipt, h]

theorem mapLen_insert_of_not_mem {V : Type} (m : GoMap V) (k : String) (v : V) (h : k ∉ m) :
    mapLen (m.insert k v) = mapLen m + 1 := by
  have hk : (m.insert k v).keys = insert k m.keys := by
    ext a
    simp [Finmap.mem_keys, Finmap.mem_insert]
  unfold mapLen
  rw [hk, Finset.card_insert_of_not_mem (by simpa [Finmap.mem_keys] using h)]

theorem GetPoints_cached {rHandler : ReceiptsHandler} {id : String} {p : Int} (hid : id ≠ "")
    (h : rHandler.pointsCache.lookup id = some p) :
    GetPoints rHandler id = (rHandler, ⟨200, .points p⟩) := by
  simp [GetPoints, hid, h]

theorem GetPoints_computed {rHandler : ReceiptsHandler} {id : String} {receipt : Receipt}
    (hid : id ≠ "") (hc : rHandler.pointsCache.lookup id = none)
    (h : rHandler.db.lookup id = some receipt) :
    GetPoints rHandler id
      = ({ rHandler with
            pointsCache := rHandler.pointsCache.insert id (CalculatePointsFromReceipt receipt) },
          ⟨200, .points (CalculatePointsFromReceipt receipt)⟩) := by
  simp [GetPoints, hid, hc, h]

theorem GetPoints_unknown {rHandler : ReceiptsHandler} {id : String}
    (hid : id ≠ "") (hc : rHandler.pointsCache.lookup id = none)
    (h : rHandler.db.lookup id = none) :
    GetPoints rHandler id = (rHandler, ⟨404, .empty⟩) := by
  simp [GetPoints, hid, hc, h]

/-! ## The handlers -/

/-- Requests the code rejects. Whatever the store holds, a request whose body cannot be read or
decoded, or whose decoded receipt fails one of the checks as `ValidateReceipt` runs them
(retailer, date, time, total, or the description or price of some item, each by the pattern
written in the code), makes `ProcessReceipt` respond 400 with an empty payload and leave the
handler state as it was: both maps are unchanged, and so is the number of stored receipts. -/
theorem ProcessReceipt_rejected_changes_nothing (rHandler : ReceiptsHandler) (body : Body)
    (id : String)
    (hbad : body = .readError ∨ body = .unmarshalError ∨
      ∃ r, body = .decoded r ∧
        (validRetailer.MatchString r.Retailer = false
          ∨ validDate.MatchString r.PurchaseDate = false
          ∨ validTime.MatchString r.PurchaseTime = false
          ∨ validMoney.MatchString r.Total = false
          ∨ ∃ item ∈ r.Items, validDescription.MatchString item.ShortDescription = false
              ∨ validMoney.MatchString item.Price = false)) :
    (ProcessReceipt rHandler body id).2 = ⟨400, .empty⟩
      ∧ (ProcessReceipt rHandler body id).1.db = rHandler.db
      ∧ (ProcessReceipt rHandler body id).1.pointsCache = rHandler.pointsCache
      ∧ mapLen (ProcessReceipt rHandler body id).1.db = mapLen rHandler.db := by
  have herr : ∃ e, ValidateReceipt body = .error e := by
    rcases ValidateReceipt_error_or_ok body with h | ⟨receipt, h⟩
    · exact h
    · exfalso
      have hb := ValidateReceipt_ok_decoded h
      subst hb
      obtain ⟨-, h1, h2, h3, h4, h5⟩ := (ValidateReceipt_decoded_ok_iff receipt receipt).1 h
      rcases hbad with hb | hb | ⟨r, hr, hb⟩
      · cases hb
      · cases hb
      · cases hr
        rcases hb with hb | hb | hb | hb | hb
        · simp [h1] at hb
        · simp [h2] at hb
        · simp [h3] at hb
        · simp [h4] at hb
        · have := (itemsValid_eq_false_iff receipt.Items).2 hb
          simp [h5] at this
  obtain ⟨e, he⟩ := herr
  simp [ProcessReceipt_of_error rHandler id he]

/-- Requests the code rejects, at concrete inputs: the empty request body of the test "Invalid
Receipt", which does not decode, sent to the new handler; and the sample receipt with the total
"12.103" of the test "Invalid Total", sent to a handler that holds one receipt and its cached
points. -/
theorem ProcessReceipt_rejected_examples :
    ((ProcessReceipt NewReceiptsHandler .unmarshalError "3f0c7a52").2 = ⟨400, .empty⟩
        ∧ (ProcessReceipt NewReceiptsHandler .unmarshalError "3f0c7a52").1.db
            = NewReceiptsHandler.db
        ∧ (ProcessReceipt NewReceiptsHandler .unmarshalError "3f0c7a52").1.pointsCache
            = NewReceiptsHandler.pointsCache
        ∧ mapLen (ProcessReceipt NewReceiptsHandler .unmarshalError "3f0c7a52").1.db
            = mapLen NewReceiptsHandler.db)
      ∧ ((ProcessReceipt ⟨Finmap.singleton "abc" sampleReceipt, Finmap.singleton "abc" 11⟩
            (.decoded { sampleReceipt with Total := "12.103" }) "3f0c7a52").2 = ⟨400, .empty⟩
        ∧ (ProcessReceipt ⟨Finmap.singleton "abc" sampleReceipt, Finmap.singleton "abc" 11⟩
            (.decoded { sampleReceipt with Total := "12.103" }) "3f0c7a52").1.db
            = Finmap.singleton "abc" sampleReceipt
        ∧ (ProcessReceipt ⟨Finmap.singleton "abc" sampleReceipt, Finmap.singleton "abc" 11⟩
            (.decoded { sampleReceipt with Total := "12.103" }) "3f0c7a52").1.pointsCache
            = Finmap.singleton "abc" 11
        ∧ mapLen (ProcessReceipt ⟨Finmap.singleton "abc" sampleReceipt, Finmap.singleton "abc" 11⟩
            (.decoded { sampleReceipt with Total := "12.103" }) "3f0c7a52").1.db
            = mapLen (Finmap.singleton "abc" sampleReceipt)) :=
  ⟨ProcessReceipt_rejected_changes_nothing NewReceiptsHandler .unmarshalError "3f0c7a52"
      (Or.inr (Or.inl rfl)),
    ProcessReceipt_rejected_changes_nothing
      ⟨Finmap.singleton "abc" sampleReceipt, Finmap.singleton "abc" 11⟩
      (.decoded { sampleReceipt with Total := "12.103" }) "3f0c7a52"
      (Or.inr (Or.inr ⟨_, rfl, Or.inr (Or.inr (Or.inr (Or.inl (by decide))))⟩))⟩

/-- C5, code bug. The sample receipt with total "3290" fails the total rule of the
specification (it has no point), and the sample receipt with purchase date ",022-04-11" fails
its date rule (a comma is not `1` or `2`). Sent to the new handler, whose store is empty, each
request is answered by `ProcessReceipt` with 200 and the identifier drawn, and the receipt is
stored under it: the store goes from 0 to 1 receipts. The sample receipt itself passes both
rules. -/
theorem C5_request_failing_a_field_rule_is_stored :
    specMoney.MatchString "3290" = false
      ∧ specDate.MatchString ",022-04-11" = false
      ∧ specMoney.MatchString sampleReceipt.Total = true
      ∧ specDate.MatchString sampleReceipt.PurchaseDate = true
      ∧ mapLen NewReceiptsHandler.db = 0
      ∧ (ProcessReceipt NewReceiptsHandler (.decoded { sampleReceipt with Total := "3290" })
          "3f0c7a52").2 = ⟨200, .id "3f0c7a52"⟩
      ∧ (ProcessReceipt NewReceiptsHandler (.decoded { sampleReceipt with Total := "3290" })
          "3f0c7a52").1.db.lookup "3f0c7a52" = some { sampleReceipt with Total := "3290" }
      ∧ mapLen (ProcessReceipt NewReceiptsHandler
          (.decoded { sampleReceipt with Total := "3290" }) "3f0c7a52").1.db = 1
      ∧ (ProcessReceipt NewReceiptsHandler
          (.decoded { sampleReceipt with PurchaseDate := ",022-04-11" }) "3f0c7a52").2
          = ⟨200, .id "3f0c7a52"⟩
      ∧ (ProcessReceipt NewReceiptsHandler
          (.decoded { sampleReceipt with PurchaseDate := ",022-04-11" }) "3f0c7a52").1.db.lookup
          "3f0c7a52" = some { sampleReceipt with PurchaseDate := ",022-04-11" }
      ∧ mapLen (ProcessReceipt NewReceiptsHandler
          (.decoded { sampleReceipt with PurchaseDate := ",022-04-11" }) "3f0c7a52").1.db
          = 1 := by
  refine ⟨?_, ?_, ?_, ?_, ?_, ?_, ?_, ?_, ?_, ?_, ?_⟩ <;> decide

/-- C7. For every handler state and every identifier, `GetPoints` responds 400 exactly when the
identifier is empty, 404 exactly when it is non-empty and neither cached nor stored, and 200
exactly when it is non-empty and cached or stored; unless it responds 200, it leaves the handler
state (both maps) as it was. -/
theorem C7_GetPoints_status (rHandler : ReceiptsHandler) (id : String) :
    ((GetPoints rHandler id).2.statusCode = 400 ↔ id = "")
      ∧ ((GetPoints rHandler id).2.statusCode = 404 ↔
          id ≠ "" ∧ id ∉ rHandler.pointsCache ∧ id ∉ rHandler.db)
      ∧ ((GetPoints rHandler id).2.statusCode = 200 ↔
          id ≠ "" ∧ (id ∈ rHandler.pointsCache ∨ id ∈ rHandler.db))
      ∧ ((GetPoints rHandler id).2.statusCode = 400 ∨ (GetPoints rHandler id).2.statusCode = 404
          → (GetPoints rHandler id).1 = rHandler) := by
  by_cases hid : id = ""
  · simp [GetPoints, hid]
  · cases hc : rHandler.pointsCache.lookup id with
    | some p =>
      have hm : id ∈ rHandler.pointsCache := Finmap.mem_of_lookup_eq_some hc
      simp [GetPoints_cached hid hc, hid, hm]
    | none =>
      have hm : id ∉ rHandler.pointsCache := Finmap.lookup_eq_none.1 hc
      cases hd : rHandler.db.lookup id with
      | some receipt =>
        have hm' : id ∈ rHandler.db := Finmap.mem_of_lookup_eq_some hd
        simp [GetPoints_computed hid hc hd, hid, hm']
      | none =>
        have hm' : id ∉ rHandler.db := Finmap.lookup_eq_none.1 hd
        simp [GetPoints_unknown hid hc hd, hid, hm, hm']

/-- C6, counterexample. From the new handler, a first receipt (the sample one, 11 points) is
processed under the identifier "0b9e2d6c-5a41-4f7e-9c3d-8e1f2a7b6c50" and queried, which caches
11 for it. In that state `ValidateReceipt` accepts the every-criteria receipt (109 points) and
`ProcessReceipt`, drawing the same identifier again, responds 200 and stores it; the `GetPoints`
query made afterwards responds 200 with the cached 11, not with the 109 points of the receipt
now stored. -/
theorem C6_counterexample_cached_identifier :
    (GetPoints (ProcessReceipt NewReceiptsHandler (.decoded sampleReceipt)
        "0b9e2d6c-5a41-4f7e-9c3d-8e1f2a7b6c50").1 "0b9e2d6c-5a41-4f7e-9c3d-8e1f2a7b6c50").1
        = ⟨Finmap.singleton "0b9e2d6c-5a41-4f7e-9c3d-8e1f2a7b6c50" sampleReceipt,
            Finmap.singleton "0b9e2d6c-5a41-4f7e-9c3d-8e1f2a7b6c50" 11⟩
      ∧ ValidateReceipt (.decoded everyCriteriaReceipt) = .ok everyCriteriaReceipt
      ∧ (ProcessReceipt
            ⟨Finmap.singleton "0b9e2d6c-5a41-4f7e-9c3d-8e1f2a7b6c50" sampleReceipt,
              Finmap.singleton "0b9e2d6c-5a41-4f7e-9c3d-8e1f2a7b6c50" 11⟩
            (.decoded everyCriteriaReceipt) "0b9e2d6c-5a41-4f7e-9c3d-8e1f2a7b6c50").2
          = ⟨200, .id "0b9e2d6c-5a41-4f7e-9c3d-8e1f2a7b6c50"⟩
      ∧ (ProcessReceipt
            ⟨Finmap.singleton "0b9e2d6c-5a41-4f7e-9c3d-8e1f2a7b6c50" sampleReceipt,
              Finmap.singleton "0b9e2d6c-5a41-4f7e-9c3d-8e1f2a7b6c50" 11⟩
            (.decoded everyCriteriaReceipt) "0b9e2d6c-5a41-4f7e-9c3d-8e1f2a7b6c50").1.db.lookup
            "0b9e2d6c-5a41-4f7e-9c3d-8e1f2a7b6c50" = some everyCriteriaReceipt
      ∧ (GetPoints (ProcessReceipt
            ⟨Finmap.singleton "0b9e2d6c-5a41-4f7e-9c3d-8e1f2a7b6c50" sampleReceipt,
              Finmap.singleton "0b9e2d6c-5a41-4f7e-9c3d-8e1f2a7b6c50" 11⟩
            (.decoded everyCriteriaReceipt) "0b9e2d6c-5a41-4f7e-9c3d-8e1f2a7b6c50").1
          "0b9e2d6c-5a41-4f7e-9c3d-8e1f2a7b6c50").2 = ⟨200, .points 11⟩
      ∧ CalculatePointsFromReceipt everyCriteriaReceipt = 109 := by
  refine ⟨?_, rfl, ?_, ?_, ?_, ?_⟩ <;> decide

/-- C6, amended. For every handler state, every request whose receipt `ValidateReceipt` accepts
and every non-empty identifier drawn (a UUID string is never empty), `ProcessReceipt` responds
200 with that identifier and stores the receipt under it, leaving the cache and every entry
under another identifier unchanged; the store grows by exactly one entry when the identifier
was not stored before; and a `GetPoints` query for the identifier made afterwards responds 200,
with points equal to `CalculatePointsFromReceipt` of the stored receipt when the identifier had
no cached score before. -/
theorem C6_accepted_receipt_is_stored_and_scored (rHandler : ReceiptsHandler) (body : Body)
    (receipt : Receipt) (id : String) (hvalid : ValidateReceipt body = .ok receipt)
    (hid : id ≠ "") :
    (ProcessReceipt rHandler body id).2 = ⟨200, .id id⟩
      ∧ (ProcessReceipt rHandler body id).1.db.lookup id = some receipt
      ∧ (ProcessReceipt rHandler body id).1.pointsCache = rHandler.pointsCache
      ∧ (∀ other, other ≠ id →
          (ProcessReceipt rHandler body id).1.db.lookup other = rHandler.db.lookup other)
      ∧ (id ∉ rHandler.db →
          mapLen (ProcessReceipt rHandler body id).1.db = mapLen rHandler.db + 1)
      ∧ (GetPoints (ProcessReceipt rHandler body id).1 id).2.statusCode = 200
      ∧ (id ∉ rHandler.pointsCache →
          (GetPoints (ProcessReceipt rHandler body id).1 id).2
            = ⟨200, .points (CalculatePointsFromReceipt receipt)⟩) := by
  rw [ProcessReceipt_of_ok rHandler id hvalid]
  have hstored : (rHandler.db.insert id receipt).lookup id = some receipt :=
    Finmap.lookup_insert _
  refine ⟨rfl, hstored, rfl, ?_, ?_, ?_, ?_⟩
  · intro other hne
    exact Finmap.lookup_insert_of_ne _ hne
  · intro hfresh
    exact mapLen_insert_of_not_mem _ _ _ hfresh
  · cases hc : rHandler.pointsCache.lookup id with
    | some p => rw [GetPoints_cached hid (by simpa using hc)]
    | none => rw [GetPoints_computed hid (by simpa using hc) hstored]
  · intro hnc
    have hc : rHandler.pointsCache.lookup id = none := Finmap.lookup_eq_none.2 hnc
    rw [GetPoints_computed hid (by simpa using hc) hstored]

/-- C6 amended, at a concrete input: the sample receipt of the tests sent to the new handler, as
in the test "Valid Receipt". -/
theorem C6_witness_sampleReceipt :
    (ProcessReceipt NewReceiptsHandler (.decoded sampleReceipt) "5d1c8e0a").2
        = ⟨200, .id "5d1c8e0a"⟩
      ∧ mapLen (ProcessReceipt NewReceiptsHandler (.decoded sampleReceipt) "5d1c8e0a").1.db
          = mapLen NewReceiptsHandler.db + 1
      ∧ (GetPoints (ProcessReceipt NewReceiptsHandler (.decoded sampleReceipt) "5d1c8e0a").1
          "5d1c8e0a").2 = ⟨200, .points (CalculatePointsFromReceipt sampleReceipt)⟩ :=
  have h := C6_accepted_receipt_is_stored_and_scored NewReceiptsHandler (.decoded sampleReceipt)
    sampleReceipt "5d1c8e0a" rfl (by decide)
  ⟨h.1, h.2.2.2.2.1 Finmap.not_mem_empty, h.2.2.2.2.2.2 Finmap.not_mem_empty⟩

/-- C8. For every handler state and every stored, non-empty identifier, two consecutive
`GetPoints` queries both respond 200 with the same points value. On a cache miss the first query
returns `CalculatePointsFromReceipt` of the stored receipt and writes it into the cache, the
stored receipts unchanged. The second query returns the value the cache holds, leaves the handler
state as it was, and its response is the same whatever receipts are stored: it does not
recompute. -/
theorem C8_second_query_answers_from_cache (rHandler : ReceiptsHandler) (id : String)
    (hid : id ≠ "") (hstored : id ∈ rHandler.db) :
    ∃ (receipt : Receipt) (points : Int),
      rHandler.db.lookup id = some receipt
        ∧ (GetPoints rHandler id).2 = ⟨200, .points points⟩
        ∧ (GetPoints (GetPoints rHandler id).1 id).2 = ⟨200, .points points⟩
        ∧ (rHandler.pointsCache.lookup id = none →
            points = CalculatePointsFromReceipt receipt
              ∧ (GetPoints rHandler id).1.pointsCache = rHandler.pointsCache.insert id points
              ∧ (GetPoints rHandler id).1.db = rHandler.db)
        ∧ (GetPoints rHandler id).1.pointsCache.lookup id = some points
        ∧ (GetPoints (GetPoints rHandler id).1 id).1 = (GetPoints rHandler id).1
        ∧ (∀ db, (GetPoints ⟨db, (GetPoints rHandler id).1.pointsCache⟩ id).2
            = ⟨200, .points points⟩) := by
  obtain ⟨receipt, hd⟩ := Finmap.mem_iff.1 hstored
  cases hc : rHandler.pointsCache.lookup id with
  | some p =>
    refine ⟨receipt, p, hd, ?_⟩
    rw [GetPoints_cached hid hc, GetPoints_cached hid hc]
    refine ⟨rfl, rfl, ?_, hc, rfl, ?_⟩
    · intro h; cases h
    · intro db
      exact congrArg Prod.snd (@GetPoints_cached ⟨db, rHandler.pointsCache⟩ id p hid hc)
  | none =>
    refine ⟨receipt, CalculatePointsFromReceipt receipt, hd, ?_⟩
    have hc' : (rHandler.pointsCache.insert id (CalculatePointsFromReceipt receipt)).lookup id
        = some (CalculatePointsFromReceipt receipt) := Finmap.lookup_insert _
    have h2 : ∀ db, GetPoints
        ⟨db, rHandler.pointsCache.insert id (CalculatePointsFromReceipt receipt)⟩ id
        = (⟨db, rHandler.pointsCache.insert id (CalculatePointsFromReceipt receipt)⟩,
            ⟨200, .points (CalculatePointsFromReceipt receipt)⟩) :=
      fun db => GetPoints_cached hid hc'
    rw [GetPoints_computed hid hc hd]
    dsimp only
    rw [h2 rHandler.db]
    refine ⟨rfl, rfl, ?_, hc', rfl, ?_⟩
    · intro _
      exact ⟨rfl, rfl, rfl⟩
    · intro db
      rw [h2 db]

/-- C8, at a concrete input: the sample receipt stored under "abc" and nothing cached, as in the
test "Receipt found"; both queries answer with 11 points. -/
theorem C8_witness_receipt_found :
    ∃ points : Int,
      (GetPoints ⟨Finmap.singleton "abc" sampleReceipt, ∅⟩ "abc").2 = ⟨200, .points points⟩
        ∧ (GetPoints (GetPoints ⟨Finmap.singleton "abc" sampleReceipt, ∅⟩ "abc").1 "abc").2
            = ⟨200, .points points⟩
        ∧ (GetPoints (GetPoints ⟨Finmap.singleton "abc" sampleReceipt, ∅⟩ "abc").1 "abc").1
            = (GetPoints ⟨Finmap.singleton "abc" sampleReceipt, ∅⟩ "abc").1 :=
  have ⟨_, points, h⟩ := C8_second_query_answers_from_cache
    ⟨Finmap.singleton "abc" sampleReceipt, ∅⟩ "abc" (by decide) (by decide)
  ⟨points, h.2.1, h.2.2.1, h.2.2.2.2.2.1⟩

/-! ## The date rule -/

theorem parseDate_eq_some {cs : List Char} {year month day : Nat}
    (h : parseDate cs = some (year, month, day)) :
    ∃ y1 y2 y3 y4 s1 m1 m2 s2 d1 d2,
      cs = [y1, y2, y3, y4, s1, m1, m2, s2, d1, d2] ∧ isDigit m1 = true ∧ isDigit m2 = true
        ∧ month = twoDigits m1 m2 := by
  unfold parseDate at h
  split at h
  · rename_i y1 y2 y3 y4 s1 m1 m2 s2 d1 d2
    refine ⟨y1, y2, y3, y4, s1, m1, m2, s2, d1, d2, rfl, ?_⟩
    split at h
    · rename_i hd
      simp only [Bool.and_eq_true] at hd
      dsimp only at h
      split at h
      · cases h
      · split at h
        · cases h
        · simp only [Option.some.injEq, Prod.mk.injEq] at h
          exact ⟨hd.1.1.1.1.2, hd.1.1.1.2, h.2.1.symm⟩
    · cases h
  · cases h

/-- The date rule on calendar dates. For every receipt whose purchase date is one `time.Parse`
accepts (four digits, two for a month from 01 to 12, two for a day that exists in that month),
the month parsed is the number written by the 6th and 7th characters and the date rule
contributes 6 points when it is odd and 0 when it is even, whatever the day and year: the
receipt's points are the other rules' contributions plus that, in a Go `int`. -/
theorem date_rule_on_calendar_dates (receipt : Receipt) (year month day : Nat)
    (hparse : parseDate receipt.PurchaseDate.data = some (year, month, day)) :
    (∃ m1 m2, receipt.PurchaseDate.data.get? 5 = some m1
        ∧ receipt.PurchaseDate.data.get? 6 = some m2
        ∧ isDigit m1 = true ∧ isDigit m2 = true ∧ month = twoDigits m1 m2)
      ∧ datePoints receipt.PurchaseDate = (if month % 2 = 1 then 6 else 0)
      ∧ CalculatePointsFromReceipt receipt
          = wrapInt64 (retailerPoints receipt.Retailer + roundDollarPoints receipt.Total
              + quarterPoints receipt.Total + pairPoints receipt.Items
              + itemsPoints receipt.Items + (if month % 2 = 1 then 6 else 0)
              + timePoints receipt.PurchaseTime) := by
  have hpts : datePoints receipt.PurchaseDate = (if month % 2 = 1 then 6 else 0) := by
    simp [datePoints, dateMonth, hparse]
  obtain ⟨y1, y2, y3, y4, s1, m1, m2, s2, d1, d2, hcs, hm1, hm2, hm⟩ := parseDate_eq_some hparse
  refine ⟨⟨m1, m2, ?_, ?_, hm1, hm2, hm⟩, hpts, ?_⟩
  · rw [hcs]; rfl
  · rw [hcs]; rfl
  · rw [CalculatePointsFromReceipt, hpts]

/-- The date rule on a date `time.Parse` rejects: the month read is that of the zero time,
January, and the rule contributes 6 points. -/
theorem date_rule_on_rejected_dates (purchaseDate : String)
    (hparse : parseDate purchaseDate.data = none) : datePoints purchaseDate = 6 := by
  simp [datePoints, dateMonth, hparse]

/-- C9, code bug. The purchase date "2022-02-30" passes the validator's date pattern and its
month, written "02" in the 6th and 7th characters, is even (as is its day); yet the date rule
contributes 6 points, since `time.Parse` rejects the day, the error is discarded and the month
read is that of the zero time, January. The sample receipt with this date is accepted and scores
17, against 11 with "2022-02-28". -/
theorem C9_february_30_earns_date_points :
    validDate.MatchString "2022-02-30" = true
      ∧ "2022-02-30".data = ['2', '0', '2', '2', '-', '0', '2', '-', '3', '0']
      ∧ twoDigits '0' '2' % 2 = 0
      ∧ parseDate "2022-02-30".data = none
      ∧ dateMonth "2022-02-30".data = 1
      ∧ datePoints "2022-02-30" = 6
      ∧ ValidateReceipt (.decoded { sampleReceipt with PurchaseDate := "2022-02-30" })
          = .ok { sampleReceipt with PurchaseDate := "2022-02-30" }
      ∧ CalculatePointsFromReceipt { sampleReceipt with PurchaseDate := "2022-02-30" } = 17
      ∧ datePoints "2022-02-28" = 0
      ∧ CalculatePointsFromReceipt { sampleReceipt with PurchaseDate := "2022-02-28" } = 11 := by
  refine ⟨?_, ?_, ?_, ?_, ?_, ?_, rfl, ?_, ?_, ?_⟩ <;> decide

/-! ## The total rules -/

theorem removePoints_digits {ds : List Char} (hds : ∀ c ∈ ds, isDigit c = true) :
    removePoints ds = ds := by
  unfold removePoints
  rw [List.filter_eq_self]
  intro c hc
  have h := hds c hc
  simp only [isDigit, Bool.and_eq_true, decide_eq_true_eq] at h
  simp only [bne_iff_ne, ne_eq]
  omega

theorem removePoints_money (ds : List Char) (d1 d2 : Char) (hds : ∀ c ∈ ds, isDigit c = true)
    (h1 : isDigit d1 = true) (h2 : isDigit d2 = true) :
    removePoints (ds ++ ['.', d1, d2]) = ds ++ [d1, d2] := by
  have hall : ∀ c ∈ [d1, d2], isDigit c = true := by
    intro c hc
    simp only [List.mem_cons, List.mem_singleton, List.not_mem_nil, or_false] at hc
    rcases hc with rfl | rfl
    · exact h1
    · exact h2
  have hsplit : ds ++ ['.', d1, d2] = ds ++ (['.'] ++ [d1, d2]) := rfl
  rw [hsplit]
  unfold removePoints
  rw [List.filter_append, List.filter_append]
  have e1 := removePoints_digits hds
  have e2 := removePoints_digits hall
  unfold removePoints at e1 e2
  rw [e1, e2]
  rfl

theorem foldl_decimal_ge (cs : List Char) (n : Nat) :
    n ≤ cs.foldl (fun n c => 10 * n + digitVal c) n := by
  induction cs generalizing n with
  | nil => exact Nat.le_refl n
  | cons c cs ih =>
    have := ih (10 * n + digitVal c)
    simp only [List.foldl_cons]
    omega

theorem parseUintLoop_digits (cs : List Char) (n : Nat) (hcs : ∀ c ∈ cs, isDigit c = true)
    (hfit : cs.foldl (fun n c => 10 * n + digitVal c) n ≤ 2 ^ 32 - 1) :
    parseUintLoop cs n = (cs.foldl (fun n c => 10 * n + digitVal c) n, none) := by
  induction cs generalizing n with
  | nil => rfl
  | cons c cs ih =>
    have hc : isDigit c = true := hcs c (List.mem_cons_self c cs)
    have hge := foldl_decimal_ge cs (10 * n + digitVal c)
    simp only [List.foldl_cons] at hfit ⊢
    have hstep : ¬ (10 * n + digitVal c > 2 ^ 32 - 1) := by omega
    rw [parseUintLoop]
    simp only [hc, Bool.not_true, Bool.false_eq_true, if_false, hstep]
    exact ih _ (fun d hd => hcs d (List.mem_cons_of_mem c hd)) hfit

theorem ParseInt32_digits (cs : List Char) (hne : cs ≠ []) (hcs : ∀ c ∈ cs, isDigit c = true)
    (hfit : decimalNat cs < 2 ^ 31) :
    ParseInt32 cs = (((decimalNat cs : Nat) : Int), none) := by
  cases cs with
  | nil => exact absurd rfl hne
  | cons c rest =>
    have hc : isDigit c = true := hcs c (List.mem_cons_self c rest)
    have hc' := hc
    simp only [isDigit, Bool.and_eq_true, decide_eq_true_eq] at hc'
    have h43 : (c.toNat == 43) = false := by simp only [beq_eq_false_iff_ne, ne_eq]; omega
    have h45 : (c.toNat == 45) = false := by simp only [beq_eq_false_iff_ne, ne_eq]; omega
    have hloop : ParseUint32 (c :: rest) = (decimalNat (c :: rest), none) := by
      unfold ParseUint32
      rw [if_neg (by simp)]
      exact parseUintLoop_digits (c :: rest) 0 hcs (by unfold decimalNat at hfit; omega)
    have hclamp : clampInt32 false (decimalNat (c :: rest))
        = (((decimalNat (c :: rest) : Nat) : Int), none) := by
      unfold clampInt32
      have : ¬ (2 ^ 31 ≤ decimalNat (c :: rest)) := by omega
      simp [this]
      omega
    simp only [ParseInt32, h43, h45, Bool.or_self, Bool.false_eq_true, if_false, hloop, hclamp]

theorem receiptTotalInCents_money (total : String) (ds : List Char) (d1 d2 : Char)
    (hform : total.data = ds ++ ['.', d1, d2]) (hds : ∀ c ∈ ds, isDigit c = true)
    (h1 : isDigit d1 = true) (h2 : isDigit d2 = true)
    (hfit : decimalNat (ds ++ [d1, d2]) < 2 ^ 31) :
    receiptTotalInCents total = ((decimalNat (ds ++ [d1, d2]) : Nat) : Int) := by
  unfold receiptTotalInCents
  rw [hform, removePoints_money ds d1 d2 hds h1 h2]
  have hall : ∀ c ∈ ds ++ [d1, d2], isDigit c = true := by
    intro c hc
    simp only [List.mem_append, List.mem_cons, List.mem_singleton, List.not_mem_nil,
      or_false] at hc
    rcases hc with hc | rfl | rfl
    · exact hds c hc
    · exact h1
    · exact h2
  rw [ParseInt32_digits _ (by simp) hall hfit]

/-- The total rules on a total that fits 32 bits. For every receipt whose total has the form
digits, point, two digits and whose value in cents (the base-10 number left when the point is
removed) is at most `2^31 - 1 = 2147483647`, the round-dollar rule contributes 50 points exactly
when the cents are divisible by 100 and the quarter rule 25 points exactly when they are
divisible by 25. -/
theorem total_rules_of_cents_within_32_bits (receipt : Receipt) (ds : List Char) (d1 d2 : Char)
    (hform : receipt.Total.data = ds ++ ['.', d1, d2])
    (hds : ∀ c ∈ ds, isDigit c = true) (h1 : isDigit d1 = true) (h2 : isDigit d2 = true)
    (hfit : decimalNat (ds ++ [d1, d2]) < 2 ^ 31) :
    roundDollarPoints receipt.Total = (if decimalNat (ds ++ [d1, d2]) % 100 = 0 then 50 else 0)
      ∧ quarterPoints receipt.Total
          = (if decimalNat (ds ++ [d1, d2]) % 25 = 0 then 25 else 0) := by
  have hcents := receiptTotalInCents_money receipt.Total ds d1 d2 hform hds h1 h2 hfit
  have hmod : ∀ k : Nat, ((decimalNat (ds ++ [d1, d2]) : Nat) : Int).tmod (k : Nat) = 0
      ↔ decimalNat (ds ++ [d1, d2]) % k = 0 := by
    intro k
    rw [← Int.ofNat_tmod]
    exact Int.natCast_eq_zero
  constructor
  · unfold roundDollarPoints
    rw [hcents]
    have := hmod 100
    simp only [Nat.cast_ofNat] at this
    simp only [this]
  · unfold quarterPoints
    rw [hcents]
    have := hmod 25
    simp only [Nat.cast_ofNat] at this
    simp only [this]

/-- C10, code bug. The total "21474837.00" has the form digits, point, two digits and the
sample receipt with this total is accepted by the validator; its value in cents, 2147483700, is
divisible by 100 and by 25; yet the two total rules contribute nothing and the receipt scores
11, the same as with a total that earns no bonus: the cents are read into 32 bits, the range
error is discarded, and the value left is 2147483647. The total "21474836.00", just below the
limit, earns 50 and 25, and the total "0.00" earns 75. -/
theorem C10_large_total_earns_nothing :
    "21474837.00".data = "21474837".data ++ ['.', '0', '0']
      ∧ ValidateReceipt (.decoded { sampleReceipt with Total := "21474837.00" })
          = .ok { sampleReceipt with Total := "21474837.00" }
      ∧ decimalNat ("21474837".data ++ ['0', '0']) = 2147483700
      ∧ 2147483700 % 100 = 0 ∧ 2147483700 % 25 = 0
      ∧ ParseInt32 (removePoints "21474837.00".data) = (2147483647, some .outOfRange)
      ∧ receiptTotalInCents "21474837.00" = 2147483647
      ∧ roundDollarPoints "21474837.00" = 0
      ∧ quarterPoints "21474837.00" = 0
      ∧ CalculatePointsFromReceipt { sampleReceipt with Total := "21474837.00" } = 11
      ∧ roundDollarPoints "21474836.00" = 50
      ∧ quarterPoints "21474836.00" = 25
      ∧ roundDollarPoints "0.00" + quarterPoints "0.00" = 75 := by
  refine ⟨?_, rfl, ?_, ?_, ?_, ?_, ?_, ?_, ?_, ?_, ?_, ?_, ?_⟩ <;> decide

/-! ## The time rule and the time pattern -/

theorem parseClock_HHMM (h1 h2 m1 m2 : Char) (hh1 : isDigit h1 = true) (hh2 : isDigit h2 = true)
    (hm1 : isDigit m1 = true) (hm2 : isDigit m2 = true) (hhour : twoDigits h1 h2 < 24)
    (hmin : twoDigits m1 m2 < 60) :
    parseClock [h1, h2, ':', m1, m2] = some (twoDigits h1 h2, twoDigits m1 m2) := by
  have hcolon : ((':' : Char).toNat == 58) = true := by decide
  simp [parseClock, hh1, hh2, hm1, hm2, hhour, hmin, hcolon]

/-- C12. For every receipt whose purchase time is two digits for an hour below 24, a colon and
two digits for a minute below 60, the time rule contributes 10 points if and only if the time is
strictly after 14:00 and strictly before 16:00, that is from 14:01 to 15:59, and 0 points
otherwise; "14:00" and "16:00" contribute 0, "14:01" and "15:59" contribute 10. -/
theorem C12_time_rule_window (receipt : Receipt) (h1 h2 m1 m2 : Char)
    (hform : receipt.PurchaseTime.data = [h1, h2, ':', m1, m2])
    (hh1 : isDigit h1 = true) (hh2 : isDigit h2 = true)
    (hm1 : isDigit m1 = true) (hm2 : isDigit m2 = true)
    (hhour : twoDigits h1 h2 < 24) (hmin : twoDigits m1 m2 < 60) :
    (timePoints receipt.PurchaseTime = 10 ↔
        14 * 60 < 60 * twoDigits h1 h2 + twoDigits m1 m2
          ∧ 60 * twoDigits h1 h2 + twoDigits m1 m2 < 16 * 60)
      ∧ (timePoints receipt.PurchaseTime = 10 ↔
          (twoDigits h1 h2 = 14 ∧ 1 ≤ twoDigits m1 m2) ∨ twoDigits h1 h2 = 15)
      ∧ (timePoints receipt.PurchaseTime = 10 ∨ timePoints receipt.PurchaseTime = 0)
      ∧ timePoints "14:00" = 0 ∧ timePoints "16:00" = 0
      ∧ timePoints "14:01" = 10 ∧ timePoints "15:59" = 10 := by
  have h2pm : clockInstant TwoPM.data = 840 := by decide
  have h4pm : clockInstant FourPM.data = 960 := by decide
  have hinst : clockInstant receipt.PurchaseTime.data
      = 60 * twoDigits h1 h2 + twoDigits m1 m2 := by
    rw [hform, clockInstant, parseClock_HHMM h1 h2 m1 m2 hh1 hh2 hm1 hm2 hhour hmin]
  have hpts : timePoints receipt.PurchaseTime
      = if 840 < 60 * twoDigits h1 h2 + twoDigits m1 m2
          ∧ 60 * twoDigits h1 h2 + twoDigits m1 m2 < 960 then 10 else 0 := by
    rw [timePoints, h2pm, h4pm, hinst]
  refine ⟨?_, ?_, ?_, by decide, by decide, by decide, by decide⟩
  · rw [hpts]
    by_cases hw : 840 < 60 * twoDigits h1 h2 + twoDigits m1 m2
        ∧ 60 * twoDigits h1 h2 + twoDigits m1 m2 < 960
    · simp [hw]
    · have hw' : ¬ (14 * 60 < 60 * twoDigits h1 h2 + twoDigits m1 m2
          ∧ 60 * twoDigits h1 h2 + twoDigits m1 m2 < 16 * 60) := hw
      rw [if_neg hw]
      constructor
      · intro h; cases h
      · intro h; exact absurd h hw'
  · rw [hpts]
    by_cases hw : 840 < 60 * twoDigits h1 h2 + twoDigits m1 m2
        ∧ 60 * twoDigits h1 h2 + twoDigits m1 m2 < 960
    · simp only [hw, and_self, if_true, true_iff]
      omega
    · simp only [hw, if_false]
      constructor
      · intro h; cases h
      · intro h
        exfalso
        apply hw
        omega
  · rw [hpts]
    by_cases hw : 840 < 60 * twoDigits h1 h2 + twoDigits m1 m2
        ∧ 60 * twoDigits h1 h2 + twoDigits m1 m2 < 960
    · left; simp [hw]
    · right; simp [hw]

/-- C12, at a concrete input: the every-criteria receipt, whose purchase time is "15:00". -/
theorem C12_witness_three_pm :
    timePoints everyCriteriaReceipt.PurchaseTime = 10 ↔
      14 * 60 < 60 * twoDigits '1' '5' + twoDigits '0' '0'
        ∧ 60 * twoDigits '1' '5' + twoDigits '0' '0' < 16 * 60 :=
  (C12_time_rule_window everyCriteriaReceipt '1' '5' '0' '0' (by decide) (by decide) (by decide)
    (by decide) (by decide) (by decide) (by decide)).1

theorem toNat_beq_iff (c d : Char) : (d.toNat == c.toNat) = true ↔ d = c := by
  rw [beq_iff_eq]
  constructor
  · intro h
    exact Char.ext (UInt32.ext (by simpa [Char.toNat] using h))
  · intro h; rw [h]

theorem Regex.matchChars_cls_cls_iff (p q : Char → Bool) (s : List Char) :
    Regex.matchChars (Regex.seq (Regex.cls p) (Regex.cls q)) s = true ↔
      ∃ a b, s = [a, b] ∧ p a = true ∧ q b = true := by
  match s with
  | [] => simp [Regex.matchChars_cls_seq_nil]
  | [a] => simp [Regex.matchChars_cls_seq_cons, Regex.matchChars_cls_nil]
  | [a, b] =>
    rw [Regex.matchChars_cls_seq_cons, Regex.matchChars_cls_single, Bool.and_eq_true]
    constructor
    · intro h
      exact ⟨a, b, rfl, h⟩
    · rintro ⟨a', b', hab, h⟩
      simp only [List.cons.injEq, and_true] at hab
      rw [hab.1, hab.2]
      exact h
  | a :: b :: c :: t => simp [Regex.matchChars_cls_seq_cons, Regex.matchChars_cls_long]

/-- What the time pattern accepts: exactly the texts of five characters made of two digits
writing an hour below 24, a colon, and two digits writing a minute below 60. -/
theorem validTime_MatchString_iff (s : String) :
    validTime.MatchString s = true ↔
      ∃ h1 h2 m1 m2 : Char,
        s.data = [h1, h2, ':', m1, m2]
          ∧ isDigit h1 = true ∧ isDigit h2 = true ∧ isDigit m1 = true ∧ isDigit m2 = true
          ∧ twoDigits h1 h2 < 24 ∧ twoDigits m1 m2 < 60 := by
  have e0 : ('0' : Char).toNat = 48 := rfl
  have e1 : ('1' : Char).toNat = 49 := rfl
  have e2 : ('2' : Char).toNat = 50 := rfl
  have e3 : ('3' : Char).toNat = 51 := rfl
  have e5 : ('5' : Char).toNat = 53 := rfl
  have e9 : ('9' : Char).toNat = 57 := rfl
  unfold Regex.MatchString validTime Regex.lit Regex.range
  rw [Regex.matchChars_seq_iff]
  simp only [Regex.matchChars_alt, Bool.or_eq_true, Regex.matchChars_cls_cls_iff]
  constructor
  · rintro ⟨s1, s2, hs, h1, h2⟩
    match s2, h2 with
    | [c, m1, m2], h2 =>
      simp only [Regex.matchChars_cls_seq_cons, Regex.matchChars_cls_single, Bool.and_eq_true,
        toNat_beq_iff, decide_eq_true_eq, e0, e5, e9] at h2
      obtain ⟨hc, hm1, hm2⟩ := h2
      subst hc
      have hhour : ∃ a b, s1 = [a, b] ∧ 48 ≤ a.toNat ∧ 48 ≤ b.toNat ∧ b.toNat ≤ 57
          ∧ 10 * (a.toNat - 48) + (b.toNat - 48) < 24 := by
        rcases h1 with ⟨a, b, rfl, ha, hb⟩ | ⟨a, b, rfl, ha, hb⟩ | ⟨a, b, rfl, ha, hb⟩ <;>
          simp only [beq_iff_eq, Bool.and_eq_true, decide_eq_true_eq, e0, e1, e2, e3, e9]
            at ha hb <;>
          exact ⟨a, b, rfl, by omega, by omega, by omega, by omega⟩
      obtain ⟨a, b, rfl, ha, hb, hb', hab⟩ := hhour
      refine ⟨a, b, m1, m2, hs, ?_, ?_, ?_, ?_, ?_, ?_⟩
      · simp only [isDigit, Bool.and_eq_true, decide_eq_true_eq]; omega
      · simp only [isDigit, Bool.and_eq_true, decide_eq_true_eq]; omega
      · simp only [isDigit, Bool.and_eq_true, decide_eq_true_eq]; omega
      · simp only [isDigit, Bool.and_eq_true, decide_eq_true_eq]; omega
      · simp only [twoDigits, digitVal]; exact hab
      · simp only [twoDigits, digitVal]; omega
    | [], h2 => simp [Regex.matchChars_cls_seq_nil] at h2
    | [_], h2 => simp [Regex.matchChars_cls_seq_cons, Regex.matchChars_cls_seq_nil] at h2
    | [_, _], h2 =>
      simp [Regex.matchChars_cls_seq_cons, Regex.matchChars_cls_seq_nil,
        Regex.matchChars_cls_nil] at h2
    | _ :: _ :: _ :: _ :: _, h2 =>
      simp [Regex.matchChars_cls_seq_cons, Regex.matchChars_cls_long] at h2
  · rintro ⟨h1, h2, m1, m2, hs, hh1, hh2, hm1, hm2, hhour, hmin⟩
    simp only [isDigit, Bool.and_eq_true, decide_eq_true_eq] at hh1 hh2 hm1 hm2
    simp only [twoDigits, digitVal] at hhour hmin
    refine ⟨[h1, h2], [':', m1, m2], hs, ?_, ?_⟩
    · have hcases : h1.toNat = 48 ∨ h1.toNat = 49 ∨ h1.toNat = 50 := by omega
      rcases hcases with h | h | h
      · left
        exact ⟨h1, h2, rfl, by simp only [beq_iff_eq, e0]; exact h,
          by simp only [Bool.and_eq_true, decide_eq_true_eq, e0, e9]; omega⟩
      · right; left
        exact ⟨h1, h2, rfl, by simp only [beq_iff_eq, e1]; exact h,
          by simp only [Bool.and_eq_true, decide_eq_true_eq, e0, e9]; omega⟩
      · right; right
        exact ⟨h1, h2, rfl, by simp only [beq_iff_eq, e2]; exact h,
          by simp only [Bool.and_eq_true, decide_eq_true_eq, e0, e3]; omega⟩
    · simp only [Regex.matchChars_cls_seq_cons, Regex.matchChars_cls_single, Bool.and_eq_true,
        toNat_beq_iff, decide_eq_true_eq, e0, e5, e9]
      exact ⟨trivial, by omega, by omega⟩

/-- C13. For every decoded receipt whose retailer, date, total and items pass their checks,
`ValidateReceipt` accepts it if and only if the purchase time is exactly five characters: two
digits writing an hour from 00 to 23, a colon, and two digits writing a minute from 00 to 59.
Otherwise the error is "Invalid time"; so it is for "9:30PM", "24:00" and "12:60". -/
theorem C13_time_check (receipt : Receipt)
    (hretailer : validRetailer.MatchString receipt.Retailer = true)
    (hdate : validDate.MatchString receipt.PurchaseDate = true)
    (htotal : validMoney.MatchString receipt.Total = true)
    (hitems : itemsValid receipt.Items = true) :
    (ValidateReceipt (.decoded receipt) = .ok receipt ↔
        ∃ h1 h2 m1 m2 : Char,
          receipt.PurchaseTime.data = [h1, h2, ':', m1, m2]
            ∧ isDigit h1 = true ∧ isDigit h2 = true ∧ isDigit m1 = true ∧ isDigit m2 = true
            ∧ twoDigits h1 h2 < 24 ∧ twoDigits m1 m2 < 60)
      ∧ (ValidateReceipt (.decoded receipt) = .ok receipt
          ∨ ValidateReceipt (.decoded receipt) = .error "Invalid time")
      ∧ validTime.MatchString "9:30PM" = false
      ∧ validTime.MatchString "24:00" = false
      ∧ validTime.MatchString "12:60" = false := by
  refine ⟨?_, ?_, by decide, by decide, by decide⟩
  · rw [ValidateReceipt_decoded_ok_iff, ← validTime_MatchString_iff]
    simp [hretailer, hdate, htotal, hitems]
  · by_cases ht : validTime.MatchString receipt.PurchaseTime = true
    · left
      exact (ValidateReceipt_decoded_ok_iff receipt receipt).2
        ⟨rfl, hretailer, hdate, ht, htotal, hitems⟩
    · right
      simp [ValidateReceipt, hretailer, hdate, ht]

/-- C13, at concrete inputs: the sample receipt, whose purchase time is "13:01", is accepted; with
the time "9:30PM" of the test "Invalid Purchase Time" it is rejected. -/
theorem C13_witness_sample_times :
    (ValidateReceipt (.decoded sampleReceipt) = .ok sampleReceipt ↔
        ∃ h1 h2 m1 m2 : Char,
          sampleReceipt.PurchaseTime.data = [h1, h2, ':', m1, m2]
            ∧ isDigit h1 = true ∧ isDigit h2 = true ∧ isDigit m1 = true ∧ isDigit m2 = true
            ∧ twoDigits h1 h2 < 24 ∧ twoDigits m1 m2 < 60)
      ∧ (ValidateReceipt (.decoded { sampleReceipt with PurchaseTime := "9:30PM" })
            = .ok { sampleReceipt with PurchaseTime := "9:30PM" }
          ∨ ValidateReceipt (.decoded { sampleReceipt with PurchaseTime := "9:30PM" })
            = .error "Invalid time") :=
  ⟨(C13_time_check sampleReceipt (by decide) (by decide) (by decide) (by decide)).1,
    (C13_time_check { sampleReceipt with PurchaseTime := "9:30PM" } (by decide) (by decide)
      (by decide) (by decide)).2.1⟩

/-! ## The item, retailer and date checks -/

theorem itemsValid_eq_true_iff (items : List ReceiptItem) :
    itemsValid items = true ↔
      ∀ item ∈ items, validDescription.MatchString item.ShortDescription = true
        ∧ validMoney.MatchString item.Price = true := by
  induction items with
  | nil => simp [itemsValid]
  | cons item rest ih =>
    by_cases hd : validDescription.MatchString item.ShortDescription = true <;>
      by_cases hp : validMoney.MatchString item.Price = true <;>
      simp [itemsValid, hd, hp, ih]

/-- What the description pattern accepts: exactly the non-empty texts made of word characters,
characters of the class `\s` and hyphens. -/
theorem validDescription_MatchString_iff (s : String) :
    validDescription.MatchString s = true ↔
      s.data ≠ [] ∧ ∀ c ∈ s.data, isWord c = true ∨ isReSpace c = true ∨ c = '-' := by
  have hhyphen : ∀ c : Char, (c.toNat == 45) = true ↔ c = '-' := fun c => toNat_beq_iff '-' c
  unfold Regex.MatchString validDescription
  rw [Regex.matchChars_plus_cls, Bool.and_eq_true, List.all_eq_true]
  simp only [Bool.or_eq_true, hhyphen, or_assoc]
  constructor
  · rintro ⟨hne, hall⟩
    refine ⟨?_, hall⟩
    intro h
    rw [h] at hne
    simp at hne
  · rintro ⟨hne, hall⟩
    refine ⟨?_, hall⟩
    cases hs : s.data with
    | nil => exact absurd hs hne
    | cons _ _ => rfl

/-- What the retailer pattern accepts: exactly the non-empty texts with no character of the
class `\s` (tab, line feed, form feed, carriage return, space). -/
theorem validRetailer_MatchString_iff (s : String) :
    validRetailer.MatchString s = true ↔ s.data ≠ [] ∧ ∀ c ∈ s.data, isReSpace c = false := by
  unfold Regex.MatchString validRetailer
  rw [Regex.matchChars_plus_cls, Bool.and_eq_true, List.all_eq_true]
  simp only [Bool.not_eq_true']
  constructor
  · rintro ⟨hne, hall⟩
    refine ⟨?_, hall⟩
    intro h
    rw [h] at hne
    simp at hne
  · rintro ⟨hne, hall⟩
    refine ⟨?_, hall⟩
    cases hs : s.data with
    | nil => exact absurd hs hne
    | cons _ _ => rfl

/-- C14. For every decoded receipt whose retailer, date, time and total pass their checks,
`ValidateReceipt` accepts it if and only if every item, at whatever position, has a non-empty
description made only of word characters (ASCII letters, digits, underscore), characters of the
class `\s` and hyphens, and a price that passes the money check. A single item that fails makes
the whole receipt an error, "invalid item"; a receipt with no items is accepted. -/
theorem C14_item_check (receipt : Receipt)
    (hretailer : validRetailer.MatchString receipt.Retailer = true)
    (hdate : validDate.MatchString receipt.PurchaseDate = true)
    (htime : validTime.MatchString receipt.PurchaseTime = true)
    (htotal : validMoney.MatchString receipt.Total = true) :
    (ValidateReceipt (.decoded receipt) = .ok receipt ↔
        ∀ item ∈ receipt.Items,
          (item.ShortDescription.data ≠ []
            ∧ ∀ c ∈ item.ShortDescription.data,
                isWord c = true ∨ isReSpace c = true ∨ c = '-')
          ∧ validMoney.MatchString item.Price = true)
      ∧ ((∃ item ∈ receipt.Items,
            ¬ (item.ShortDescription.data ≠ []
                ∧ ∀ c ∈ item.ShortDescription.data,
                    isWord c = true ∨ isReSpace c = true ∨ c = '-')
              ∨ validMoney.MatchString item.Price = false) →
          ValidateReceipt (.decoded receipt) = .error "invalid item")
      ∧ (receipt.Items = [] → ValidateReceipt (.decoded receipt) = .ok receipt)
      ∧ (∀ c : Char, isWord c = true ↔
          (48 ≤ c.toNat ∧ c.toNat ≤ 57) ∨ (65 ≤ c.toNat ∧ c.toNat ≤ 90)
            ∨ (97 ≤ c.toNat ∧ c.toNat ≤ 122) ∨ c = '_') := by
  have hok : ValidateReceipt (.decoded receipt) = .ok receipt ↔
      ∀ item ∈ receipt.Items,
        (item.ShortDescription.data ≠ []
          ∧ ∀ c ∈ item.ShortDescription.data,
              isWord c = true ∨ isReSpace c = true ∨ c = '-')
        ∧ validMoney.MatchString item.Price = true := by
    rw [ValidateReceipt_decoded_ok_iff, itemsValid_eq_true_iff]
    simp only [validDescription_MatchString_iff, hretailer, hdate, htime, htotal, true_and]
  refine ⟨hok, ?_, ?_, ?_⟩
  · rintro ⟨item, hmem, hbad⟩
    have hnot : itemsValid receipt.Items = false := by
      rw [itemsValid_eq_false_iff]
      refine ⟨item, hmem, ?_⟩
      rcases hbad with hbad | hbad
      · left
        rw [← validDescription_MatchString_iff] at hbad
        simpa using hbad
      · right; exact hbad
    simp [ValidateReceipt, hretailer, hdate, htime, htotal, hnot]
  · intro hnil
    rw [hok, hnil]
    intro item hmem
    cases hmem
  · intro c
    have hunder : (c.toNat == 95) = true ↔ c = '_' := toNat_beq_iff '_' c
    simp only [isWord, isDigit, Bool.or_eq_true, Bool.and_eq_true, decide_eq_true_eq, hunder,
      or_assoc]

/-- C14, at concrete inputs: the sample receipt, and the sample receipt with the description
"***" of the test "Invalid Short Description" in its first item. -/
theorem C14_witness_sample_items :
    (ValidateReceipt (.decoded sampleReceipt) = .ok sampleReceipt ↔
        ∀ item ∈ sampleReceipt.Items,
          (item.ShortDescription.data ≠ []
            ∧ ∀ c ∈ item.ShortDescription.data,
                isWord c = true ∨ isReSpace c = true ∨ c = '-')
          ∧ validMoney.MatchString item.Price = true)
      ∧ ValidateReceipt (.decoded { sampleReceipt with
            Items := [⟨"***", "22.90"⟩, ⟨"Food", "10.00"⟩] }) = .error "invalid item" :=
  ⟨(C14_item_check sampleReceipt (by decide) (by decide) (by decide) (by decide)).1,
    (C14_item_check { sampleReceipt with Items := [⟨"***", "22.90"⟩, ⟨"Food", "10.00"⟩] }
      (by decide) (by decide) (by decide) (by decide)).2.1
      ⟨⟨"***", "22.90"⟩, List.mem_cons_self _ _, Or.inl (by decide)⟩⟩

/-- C15. For every decoded receipt: if the retailer is empty or contains a character of the
class `\s` (tab, line feed, form feed, carriage return, space), `ValidateReceipt` returns the
error "Invalid retailer" and no receipt, whatever the other fields are; so it does on the
receipt whose fields are all empty. Conversely, when the retailer is one or more characters
outside that class, the retailer check passes: the result is never the retailer error, and the
receipt is accepted as soon as its other fields pass their checks. -/
theorem C15_retailer_check (receipt : Receipt) :
    ((receipt.Retailer.data = [] ∨ ∃ c ∈ receipt.Retailer.data, isReSpace c = true) →
        ValidateReceipt (.decoded receipt) = .error "Invalid retailer")
      ∧ ValidateReceipt (.decoded ⟨"", "", "", [], "", 0⟩) = .error "Invalid retailer"
      ∧ ((receipt.Retailer.data ≠ [] ∧ ∀ c ∈ receipt.Retailer.data, isReSpace c = false) →
          validRetailer.MatchString receipt.Retailer = true
            ∧ ValidateReceipt (.decoded receipt) ≠ .error "Invalid retailer"
            ∧ (validDate.MatchString receipt.PurchaseDate = true →
                validTime.MatchString receipt.PurchaseTime = true →
                validMoney.MatchString receipt.Total = true →
                itemsValid receipt.Items = true →
                ValidateReceipt (.decoded receipt) = .ok receipt)) := by
  refine ⟨?_, rfl, ?_⟩
  · intro hbad
    have hnot : validRetailer.MatchString receipt.Retailer = false := by
      rw [← Bool.not_eq_true, validRetailer_MatchString_iff]
      rintro ⟨hne, hall⟩
      rcases hbad with h | ⟨c, hc, hsp⟩
      · exact hne h
      · rw [hall c hc] at hsp
        cases hsp
    simp [ValidateReceipt, hnot]
  · intro hgood
    have hmatch : validRetailer.MatchString receipt.Retailer = true :=
      (validRetailer_MatchString_iff receipt.Retailer).2 hgood
    refine ⟨hmatch, ?_, ?_⟩
    · unfold ValidateReceipt
      simp only [hmatch, Bool.not_true, Bool.false_eq_true, if_false]
      split_ifs <;> simp
    · intro hdate htime htotal hitems
      exact (ValidateReceipt_decoded_ok_iff receipt receipt).2
        ⟨rfl, hmatch, hdate, htime, htotal, hitems⟩

/-- C15, at concrete inputs: the sample receipt with the empty retailer of the test "Invalid
Retailer" and with a retailer that holds a space are rejected; the sample receipt itself passes
the retailer check. -/
theorem C15_witness_sample_retailers :
    ValidateReceipt (.decoded { sampleReceipt with Retailer := "" }) = .error "Invalid retailer"
      ∧ ValidateReceipt (.decoded { sampleReceipt with Retailer := "M&M Corner Market" })
          = .error "Invalid retailer"
      ∧ ValidateReceipt (.decoded sampleReceipt) ≠ .error "Invalid retailer" :=
  ⟨(C15_retailer_check { sampleReceipt with Retailer := "" }).1 (Or.inl rfl),
    (C15_retailer_check { sampleReceipt with Retailer := "M&M Corner Market" }).1
      (Or.inr ⟨' ', by decide, by decide⟩),
    ((C15_retailer_check sampleReceipt).2.2 (by decide)).2.1⟩

/-- C16, counterexample. The purchase date "2022-13-99" does not pass the date pattern, whose
ninth character must be `0` to `3` (or a comma): the sample receipt with that purchase date,
its other fields valid, is rejected with the error "Invalid date". -/
theorem C16_counterexample_day_99_rejected :
    validDate.MatchString "2022-13-99" = false
      ∧ ValidateReceipt (.decoded sampleReceipt) = .ok sampleReceipt
      ∧ ValidateReceipt (.decoded { sampleReceipt with PurchaseDate := "2022-13-99" })
          = .error "Invalid date" := by
  refine ⟨by decide, rfl, rfl⟩

/-- C16, amended. The date check looks at characters only: the purchase date "2022-13-39",
which names no calendar day and which `time.Parse` rejects, passes the date pattern, and every
decoded receipt with that purchase date whose other fields pass their checks is accepted by
`ValidateReceipt`. -/
theorem C16_calendar_invalid_date_accepted (receipt : Receipt)
    (hdate : receipt.PurchaseDate = "2022-13-39")
    (hretailer : validRetailer.MatchString receipt.Retailer = true)
    (htime : validTime.MatchString receipt.PurchaseTime = true)
    (htotal : validMoney.MatchString receipt.Total = true)
    (hitems : itemsValid receipt.Items = true) :
    ValidateReceipt (.decoded receipt) = .ok receipt
      ∧ validDate.MatchString "2022-13-39" = true
      ∧ parseDate "2022-13-39".data = none := by
  have hmatch : validDate.MatchString "2022-13-39" = true := by decide
  refine ⟨?_, hmatch, by decide⟩
  exact (ValidateReceipt_decoded_ok_iff receipt receipt).2
    ⟨rfl, hretailer, by rw [hdate]; exact hmatch, htime, htotal, hitems⟩

/-- C16 amended, at a concrete input: the sample receipt with the purchase date
"2022-13-39". -/
theorem C16_witness_sample_receipt :
    ValidateReceipt (.decoded { sampleReceipt with PurchaseDate := "2022-13-39" })
      = .ok { sampleReceipt with PurchaseDate := "2022-13-39" } :=
  (C16_calendar_invalid_date_accepted { sampleReceipt with PurchaseDate := "2022-13-39" } rfl
    (by decide) (by decide) (by decide) (by decide)).1

/-! ## The cache holds scores of stored receipts only -/

theorem ProcessReceipt_pointsCache (rHandler : ReceiptsHandler) (body : Body) (id : String) :
    (ProcessReceipt rHandler body id).1.pointsCache = rHandler.pointsCache := by
  rcases ValidateReceipt_error_or_ok body with ⟨e, he⟩ | ⟨receipt, hr⟩
  · rw [ProcessReceipt_of_error rHandler id he]
  · rw [ProcessReceipt_of_ok rHandler id hr]

theorem ProcessReceipt_db_mem (rHandler : ReceiptsHandler) (body : Body) (id key : String)
    (h : key ∈ rHandler.db) : key ∈ (ProcessReceipt rHandler body id).1.db := by
  rcases ValidateReceipt_error_or_ok body with ⟨e, he⟩ | ⟨receipt, hr⟩
  · rw [ProcessReceipt_of_error rHandler id he]; exact h
  · rw [ProcessReceipt_of_ok rHandler id hr]
    exact Finmap.mem_insert.2 (Or.inr h)

theorem GetPoints_db (rHandler : ReceiptsHandler) (id : String) :
    (GetPoints rHandler id).1.db = rHandler.db := by
  unfold GetPoints
  split_ifs
  · rfl
  · split
    · rfl
    · split <;> rfl

theorem GetPoints_pointsCache_mem (rHandler : ReceiptsHandler) (id key : String)
    (h : key ∈ (GetPoints rHandler id).1.pointsCache) :
    key ∈ rHandler.pointsCache ∨ (key = id ∧ id ∈ rHandler.db) := by
  unfold GetPoints at h
  split_ifs at h
  · exact Or.inl h
  · split at h
    · exact Or.inl h
    · split at h
      · exact Or.inl h
      · rename_i receipt hd
        rcases Finmap.mem_insert.1 h with hk | hk
        · exact Or.inr ⟨hk, Finmap.mem_of_lookup_eq_some hd⟩
        · exact Or.inl hk

/-- C19. In every handler state reachable from the empty store of `NewReceiptsHandler` by
`ProcessReceipt` and `GetPoints` requests, every identifier with a cached score has a stored
receipt. A request caches a score only for an identifier already stored: `ProcessReceipt`
leaves the cache as it was, and an identifier cached after `GetPoints` was cached before or is
the one asked for and is stored; neither request removes a stored receipt. -/
theorem C19_cached_implies_stored (rHandler : ReceiptsHandler) (hreach : Reachable rHandler) :
    (∀ id, id ∈ rHandler.pointsCache → id ∈ rHandler.db)
      ∧ (∀ body id, (ProcessReceipt rHandler body id).1.pointsCache = rHandler.pointsCache)
      ∧ (∀ id key, key ∈ (GetPoints rHandler id).1.pointsCache →
          key ∈ rHandler.pointsCache ∨ (key = id ∧ id ∈ rHandler.db))
      ∧ (∀ body id key, key ∈ rHandler.db → key ∈ (ProcessReceipt rHandler body id).1.db)
      ∧ (∀ id, (GetPoints rHandler id).1.db = rHandler.db) := by
  refine ⟨?_, fun body id => ProcessReceipt_pointsCache rHandler body id,
    fun id key => GetPoints_pointsCache_mem rHandler id key,
    fun body id key => ProcessReceipt_db_mem rHandler body id key,
    fun id => GetPoints_db rHandler id⟩
  induction hreach with
  | new =>
    intro id h
    exact absurd h Finmap.not_mem_empty
  | processReceipt s body id' _ ih =>
    intro id h
    rw [ProcessReceipt_pointsCache] at h
    exact ProcessReceipt_db_mem s body id' id (ih id h)
  | getPoints s id' _ ih =>
    intro id h
    rw [GetPoints_db]
    rcases GetPoints_pointsCache_mem s id' id h with hk | ⟨hk, hd⟩
    · exact ih id hk
    · rw [hk]; exact hd

/-- C19, at a concrete input: in the state reached from the new handler by processing the
sample receipt under "abc" and asking for its points, "abc" has a cached score and a stored
receipt. -/
theorem C19_witness_processed_and_scored :
    "abc" ∈ (GetPoints (ProcessReceipt NewReceiptsHandler (.decoded sampleReceipt)
        "abc").1 "abc").1.pointsCache
      ∧ "abc" ∈ (GetPoints (ProcessReceipt NewReceiptsHandler (.decoded sampleReceipt)
        "abc").1 "abc").1.db :=
  ⟨by decide,
    (C19_cached_implies_stored _
      (Reachable.getPoints _ "abc"
        (Reachable.processReceipt _ (.decoded sampleReceipt) "abc" Reachable.new))).1
      "abc" (by decide)⟩

/-! ## Numeric fields that fail to parse -/

theorem clampInt32_error_ne_badText (neg : Bool) (un : Nat) :
    (clampInt32 neg un).2 ≠ some .badText := by
  unfold clampInt32
  split_ifs <;> simp

theorem ParseInt32_of_badText (cs : List Char) (h : (ParseInt32 cs).2 = some .badText) :
    (ParseInt32 cs).1 = 0 := by
  unfold ParseInt32 at h ⊢
  cases cs with
  | nil => rfl
  | cons c rest =>
    dsimp only at h ⊢
    split at h
    · rfl
    · exact absurd h (clampInt32_error_ne_badText _ _)

/-- A total whose text, points removed, is not a number: `strconv.ParseInt` returns 0 with its
syntax error, the error is discarded, and 0 is divisible by 100 and by 25, so the two total rules
contribute 50 and 25. -/
theorem total_rules_of_unparseable_total (total : String)
    (h : (ParseInt32 (removePoints total.data)).2 = some .badText) :
    receiptTotalInCents total = 0 ∧ roundDollarPoints total = 50 ∧ quarterPoints total = 25 := by
  have h0 : receiptTotalInCents total = 0 := ParseInt32_of_badText _ h
  refine ⟨h0, ?_, ?_⟩
  · rw [roundDollarPoints, h0]; rfl
  · rw [quarterPoints, h0]; rfl

theorem ParseFloat_of_badText (cs : List Char) (h : (ParseFloat cs).2 = some .badText) :
    (ParseFloat cs).1 = .fin false 0 0 := by
  unfold ParseFloat at h ⊢
  split at h
  · cases h
  · split at h
    · rfl
    · split at h <;> cases h

/-- An item price whose text, points removed, is not a number: `strconv.ParseFloat` returns 0
with its syntax error, and the item earns no points. -/
theorem itemPoints_of_unparseable_price (item : ReceiptItem)
    (h : (ParseFloat (removePoints item.Price.data)).2 = some .badText) : itemPoints item = 0 := by
  unfold itemPoints
  split_ifs
  · rw [ParseFloat_of_badText _ h]
    decide
  · rfl

/-- C18, code bug. The total "32x90", which the validator accepts, is not a number once its
points are removed: `strconv.ParseInt` fails with a syntax error and returns 0. The two total
rules then contribute 50 and 25, and the sample receipt with this total scores 86 where the
sample receipt scores 11. An item price that is not a number, such as "22x90", does earn no
item points. -/
theorem C18_unparseable_total_earns_75 :
    ValidateReceipt (.decoded { sampleReceipt with Total := "32x90" })
        = .ok { sampleReceipt with Total := "32x90" }
      ∧ ParseInt32 (removePoints "32x90".data) = (0, some .badText)
      ∧ receiptTotalInCents "32x90" = 0
      ∧ roundDollarPoints "32x90" = 50
      ∧ quarterPoints "32x90" = 25
      ∧ CalculatePointsFromReceipt { sampleReceipt with Total := "32x90" } = 86
      ∧ CalculatePointsFromReceipt sampleReceipt = 11
      ∧ (ParseFloat (removePoints "22x90".data)).2 = some .badText
      ∧ itemPoints ⟨"abc", "22x90"⟩ = 0 := by
  refine ⟨rfl, ?_, ?_, ?_, ?_, ?_, ?_, ?_, ?_⟩ <;> decide

/-! ## The item rule -/

theorem priceInCents_money (price : String) (ds : List Char) (d1 d2 : Char)
    (hform : price.data = ds ++ ['.', d1, d2]) (hds : ∀ c ∈ ds, isDigit c = true)
    (h1 : isDigit d1 = true) (h2 : isDigit d2 = true) :
    priceInCents price = decimalNat (ds ++ [d1, d2]) := by
  unfold priceInCents
  rw [hform, removePoints_money ds d1 d2 hds h1 h2]

/-- The item loop body on a price of the form digits, point, two digits below `2 ^ 51` cents:
the float64 computation gives the cents divided by 500, rounded up. -/
theorem itemPoints_money (item : ReceiptItem) (ds : List Char) (d1 d2 : Char)
    (hform : item.Price.data = ds ++ ['.', d1, d2]) (hds : ∀ c ∈ ds, isDigit c = true)
    (h1 : isDigit d1 = true) (h2 : isDigit d2 = true)
    (hfit : priceInCents item.Price < 2 ^ 51) :
    itemPoints item =
      if byteLen (TrimSpace item.ShortDescription.data) % 3 = 0 then
        (((priceInCents item.Price + 499) / 500 : Nat) : Int)
      else 0 := by
  have hp := priceInCents_money item.Price ds d1 d2 hform hds h1 h2
  have hall : ∀ c ∈ ds ++ [d1, d2], isDigit c = true := by
    intro c hc
    simp only [List.mem_append, List.mem_cons, List.mem_singleton, List.not_mem_nil,
      or_false] at hc
    rcases hc with hc | rfl | rfl
    · exact hds c hc
    · exact h1
    · exact h2
  unfold itemPoints
  by_cases hlen : byteLen (TrimSpace item.ShortDescription.data) % 3 = 0
  · rw [if_pos hlen, if_pos hlen]
    rw [hp] at hfit ⊢
    simp only [hform, removePoints_money ds d1 d2 hds h1 h2]
    rw [ParseFloat_digits _ (by simp) hall]
    exact itemArithmetic_exact _ hfit
  · rw [if_neg hlen, if_neg hlen]

/-- Over the rationals, `x * 0.2 / 100` rounded up is `x / 500` rounded up, which in natural
number arithmetic is `(x + 499) / 500`. -/
theorem ceil_fifth_of_hundredth (x : Nat) :
    ⌈(x : ℚ) * (2 / 10) / 100⌉ = (((x + 499) / 500 : Nat) : Int)
      ∧ ⌈(x : ℚ) * (2 / 10) / 100⌉ = ⌈(x : ℚ) / 500⌉ := by
  have key : ∀ y : ℚ, y = (x : ℚ) / 500 → ⌈y⌉ = (((x + 499) / 500 : Nat) : Int) := by
    intro y hy
    have hmod := Nat.div_add_mod (x + 499) 500
    have hlt := Nat.mod_lt (x + 499) (by norm_num : 0 < 500)
    generalize (x + 499) / 500 = k at hmod
    generalize (x + 499) % 500 = r at hmod hlt
    have hlo : 500 * k ≤ x + 499 := by omega
    have hhi : x ≤ 500 * k := by omega
    have hlo' : (500 : ℚ) * k ≤ x + 499 := by exact_mod_cast hlo
    have hhi' : (x : ℚ) ≤ 500 * k := by exact_mod_cast hhi
    rw [Int.ceil_eq_iff, hy]
    push_cast
    constructor
    · rw [lt_div_iff₀ (by norm_num)]
      linarith
    · rw [div_le_iff₀ (by norm_num)]
      linarith
  constructor
  · exact key _ (by ring)
  · rw [key _ (by ring), key _ rfl]

theorem itemRule_eq (item : ReceiptItem) :
    itemRule item =
      if byteLen (TrimSpace item.ShortDescription.data) % 3 = 0 then
        (((priceInCents item.Price + 499) / 500 : Nat) : Int)
      else 0 := by
  unfold itemRule
  rw [(ceil_fifth_of_hundredth (priceInCents item.Price)).1]

/-- C11, counterexample. A large price: the item "abc" at "90071992547410.01" has
`priceInCents = 9007199254741001`, which is above `2 ^ 53` and is not a float64;
`ceil(priceInCents * 0.2 / 100)` is 18014398509483 (the quotient by 500 is
18014398509482.002), but the code, which parses the cents to the float64
`4503599627370500 * 2 = 9007199254741000` and multiplies and divides in float64, contributes
18014398509482. -/
theorem C11_counterexample_large_price :
    priceInCents "90071992547410.01" = 9007199254741001
      ∧ itemRule ⟨"abc", "90071992547410.01"⟩ = 18014398509483
      ∧ itemPoints ⟨"abc", "90071992547410.01"⟩ = 18014398509482
      ∧ (ParseFloat (removePoints ("90071992547410.01" : String).data)).1
          = .fin false 4503599627370500 1 := by
  refine ⟨by decide, ?_, by decide, by decide⟩
  rw [itemRule_eq]
  decide

/-- C11, amended to prices below `2 ^ 51` cents. For every list of items whose prices have the
form digits, point, two digits, with `priceInCents` (the base-10 number left when the point is
removed) below `2 ^ 51 = 2251799813685248`: each item contributes what the item rule says,
`ceil(priceInCents * 0.2 / 100)` over the rationals, which is `ceil(priceInCents / 500)`, when
the byte length of its white-space-trimmed description is divisible by 3, and 0 otherwise; the
item contribution of the list is the sum of these; and "abc" at "22.90" gives 5. -/
theorem C11_item_rule_below_2_pow_51 (items : List ReceiptItem)
    (hform : ∀ item ∈ items, ∃ ds d1 d2, item.Price.data = ds ++ ['.', d1, d2]
      ∧ (∀ c ∈ ds, isDigit c = true) ∧ isDigit d1 = true ∧ isDigit d2 = true)
    (hfit : ∀ item ∈ items, priceInCents item.Price < 2 ^ 51) :
    (∀ item ∈ items, itemPoints item = itemRule item
        ∧ itemPoints item =
            if byteLen (TrimSpace item.ShortDescription.data) % 3 = 0 then
              ⌈(priceInCents item.Price : ℚ) / 500⌉
            else 0)
      ∧ itemsPoints items = (items.map itemRule).sum
      ∧ itemPoints ⟨"abc", "22.90"⟩ = 5 := by
  have hitem : ∀ item ∈ items, itemPoints item = itemRule item := by
    intro item hmem
    obtain ⟨ds, d1, d2, hf, hds, h1, h2⟩ := hform item hmem
    rw [itemRule_eq, itemPoints_money item ds d1 d2 hf hds h1 h2 (hfit item hmem)]
  refine ⟨?_, ?_, by decide⟩
  · intro item hmem
    refine ⟨hitem item hmem, ?_⟩
    rw [hitem item hmem]
    unfold itemRule
    rw [(ceil_fifth_of_hundredth (priceInCents item.Price)).2]
  · unfold itemsPoints
    rw [List.map_congr_left hitem]

/-- C11 at the items of the test receipt "Points earned for every criteria": "abc" at "22.90"
and "abcdef" at "10.00" contribute `5 + 2 = 7` points. -/
theorem C11_witness_every_criteria_items :
    itemsPoints everyCriteriaReceipt.Items = (everyCriteriaReceipt.Items.map itemRule).sum
      ∧ itemPoints ⟨"abc", "22.90"⟩ = 5 :=
  (C11_item_rule_below_2_pow_51 everyCriteriaReceipt.Items
    (by
      intro item hmem
      have h : item = ⟨"abc", "22.90"⟩ ∨ item = ⟨"abcdef", "10.00"⟩ := by
        simpa [everyCriteriaReceipt] using hmem
      rcases h with rfl | rfl
      · exact ⟨['2', '2'], '9', '0', rfl, by decide, by decide, by decide⟩
      · exact ⟨['1', '0'], '0', '0', rfl, by decide, by decide, by decide⟩)
    (by
      intro item hmem
      have h : item = ⟨"abc", "22.90"⟩ ∨ item = ⟨"abcdef", "10.00"⟩ := by
        simpa [everyCriteriaReceipt] using hmem
      rcases h with rfl | rfl <;> decide)).2

/-! ## The sum of the contributions -/

theorem wrapInt64_of_fits (n : Int) (h0 : 0 ≤ n) (h1 : n < 2 ^ 63) : wrapInt64 n = n := by
  unfold wrapInt64
  omega

theorem retailerPoints_bounds (retailer : String) :
    0 ≤ retailerPoints retailer ∧ retailerPoints retailer ≤ (retailer.length : Int) := by
  unfold retailerPoints
  refine ⟨Int.natCast_nonneg _, ?_⟩
  have h : (retailer.data.filter isAlnum).length ≤ retailer.data.length :=
    List.length_filter_le _ _
  have e : retailer.length = retailer.data.length := rfl
  rw [e]
  exact_mod_cast h

theorem roundDollarPoints_bounds (total : String) :
    0 ≤ roundDollarPoints total ∧ roundDollarPoints total ≤ 50 := by
  unfold roundDollarPoints
  split <;> omega

theorem quarterPoints_bounds (total : String) :
    0 ≤ quarterPoints total ∧ quarterPoints total ≤ 25 := by
  unfold quarterPoints
  split <;> omega

theorem pairPoints_bounds (items : List ReceiptItem) :
    0 ≤ pairPoints items ∧ pairPoints items ≤ 5 * (items.length : Int) := by
  unfold pairPoints
  refine ⟨Int.natCast_nonneg _, ?_⟩
  have h : items.length / 2 * 5 ≤ 5 * items.length := by omega
  exact_mod_cast h

theorem datePoints_bounds (purchaseDate : String) :
    0 ≤ datePoints purchaseDate ∧ datePoints purchaseDate ≤ 6 := by
  unfold datePoints
  split <;> omega

theorem timePoints_bounds (purchaseTime : String) :
    0 ≤ timePoints purchaseTime ∧ timePoints purchaseTime ≤ 10 := by
  unfold timePoints
  split <;> omega

theorem itemPoints_bounds (item : ReceiptItem)
    (hitem : byteLen (TrimSpace item.ShortDescription.data) % 3 = 0 →
      (∃ ds d1 d2, item.Price.data = ds ++ ['.', d1, d2]
        ∧ (∀ c ∈ ds, isDigit c = true) ∧ isDigit d1 = true ∧ isDigit d2 = true)
      ∧ priceInCents item.Price < 2 ^ 51) :
    0 ≤ itemPoints item ∧ itemPoints item ≤ 2 ^ 43 := by
  by_cases hlen : byteLen (TrimSpace item.ShortDescription.data) % 3 = 0
  · obtain ⟨⟨ds, d1, d2, hf, hds, h1, h2⟩, hfit⟩ := hitem hlen
    rw [itemPoints_money item ds d1 d2 hf hds h1 h2 hfit, if_pos hlen]
    refine ⟨Int.natCast_nonneg _, ?_⟩
    have h : (priceInCents item.Price + 499) / 500 ≤ 2 ^ 43 := by omega
    exact_mod_cast h
  · unfold itemPoints
    rw [if_neg hlen]
    exact ⟨le_refl 0, by norm_num⟩

theorem itemsPoints_bounds (items : List ReceiptItem)
    (h : ∀ item ∈ items, 0 ≤ itemPoints item ∧ itemPoints item ≤ 2 ^ 43) :
    0 ≤ itemsPoints items ∧ itemsPoints items ≤ 2 ^ 43 * (items.length : Int) := by
  induction items with
  | nil => simp [itemsPoints]
  | cons item rest ih =>
    have h1 := h item (List.mem_cons_self item rest)
    have h2 := ih (fun i hi => h i (List.mem_cons_of_mem item hi))
    unfold itemsPoints at h2 ⊢
    simp only [List.map_cons, List.sum_cons, List.length_cons, Nat.cast_add, Nat.cast_one]
    omega

/-- C20, counterexample. Large item prices: the sample receipt with two items "abc" priced
"23058430092136939520.00" passes `ValidateReceipt`; each item contributes `2 ^ 62` points (the
price is `500 * 2 ^ 62` cents), every contribution is non-negative and they add up to
`2 ^ 63 + 11`, which is not an `int`: the sum wraps and `CalculatePointsFromReceipt` returns
`-9223372036854775797 = 11 - 2 ^ 63`. -/
theorem C20_counterexample_sum_wraps :
    ValidateReceipt (.decoded { sampleReceipt with
        Items := [⟨"abc", "23058430092136939520.00"⟩, ⟨"abc", "23058430092136939520.00"⟩] })
      = .ok { sampleReceipt with
        Items := [⟨"abc", "23058430092136939520.00"⟩, ⟨"abc", "23058430092136939520.00"⟩] }
    ∧ itemPoints ⟨"abc", "23058430092136939520.00"⟩ = 2 ^ 62
    ∧ CalculatePointsFromReceipt { sampleReceipt with
        Items := [⟨"abc", "23058430092136939520.00"⟩, ⟨"abc", "23058430092136939520.00"⟩] }
      = -9223372036854775797 := by
  refine ⟨rfl, by decide, by decide⟩

/-- C20, amended to receipts of moderate size. For every receipt, accepted by `ValidateReceipt`
or not, whose retailer has fewer than `2 ^ 60` characters, which has fewer than `2 ^ 16` items,
and in which every item whose trimmed description has a byte length divisible by 3 is priced in
the form digits, point, two digits, below `2 ^ 51` cents: each rule contribution (retailer,
round dollar, quarter, item pairs, each item and the items together, date, time) is
non-negative, the contributions add up to less than `2 ^ 63`, and
`CalculatePointsFromReceipt` returns their sum, a non-negative integer. -/
theorem C20_points_are_the_sum_of_contributions (receipt : Receipt)
    (hretailer : receipt.Retailer.length < 2 ^ 60)
    (hcount : receipt.Items.length < 2 ^ 16)
    (hitems : ∀ item ∈ receipt.Items,
      byteLen (TrimSpace item.ShortDescription.data) % 3 = 0 →
        (∃ ds d1 d2, item.Price.data = ds ++ ['.', d1, d2]
          ∧ (∀ c ∈ ds, isDigit c = true) ∧ isDigit d1 = true ∧ isDigit d2 = true)
        ∧ priceInCents item.Price < 2 ^ 51) :
    0 ≤ retailerPoints receipt.Retailer
      ∧ 0 ≤ roundDollarPoints receipt.Total
      ∧ 0 ≤ quarterPoints receipt.Total
      ∧ 0 ≤ pairPoints receipt.Items
      ∧ (∀ item ∈ receipt.Items, 0 ≤ itemPoints item)
      ∧ 0 ≤ itemsPoints receipt.Items
      ∧ 0 ≤ datePoints receipt.PurchaseDate
      ∧ 0 ≤ timePoints receipt.PurchaseTime
      ∧ retailerPoints receipt.Retailer + roundDollarPoints receipt.Total
          + quarterPoints receipt.Total + pairPoints receipt.Items + itemsPoints receipt.Items
          + datePoints receipt.PurchaseDate + timePoints receipt.PurchaseTime < 2 ^ 63
      ∧ CalculatePointsFromReceipt receipt
          = retailerPoints receipt.Retailer + roundDollarPoints receipt.Total
            + quarterPoints receipt.Total + pairPoints receipt.Items
            + itemsPoints receipt.Items + datePoints receipt.PurchaseDate
            + timePoints receipt.PurchaseTime
      ∧ 0 ≤ CalculatePointsFromReceipt receipt := by
  have hr := retailerPoints_bounds receipt.Retailer
  have hd := roundDollarPoints_bounds receipt.Total
  have hq := quarterPoints_bounds receipt.Total
  have hp := pairPoints_bounds receipt.Items
  have heach : ∀ item ∈ receipt.Items, 0 ≤ itemPoints item ∧ itemPoints item ≤ 2 ^ 43 :=
    fun item hmem => itemPoints_bounds item (hitems item hmem)
  have hi := itemsPoints_bounds receipt.Items heach
  have hdate := datePoints_bounds receipt.PurchaseDate
  have htime := timePoints_bounds receipt.PurchaseTime
  have hlenR : (receipt.Retailer.length : Int) < 2 ^ 60 := by exact_mod_cast hretailer
  have hlenI : (receipt.Items.length : Int) < 2 ^ 16 := by exact_mod_cast hcount
  have hsum : retailerPoints receipt.Retailer + roundDollarPoints receipt.Total
      + quarterPoints receipt.Total + pairPoints receipt.Items + itemsPoints receipt.Items
      + datePoints receipt.PurchaseDate + timePoints receipt.PurchaseTime < 2 ^ 63 := by
    omega
  have hval : CalculatePointsFromReceipt receipt
      = retailerPoints receipt.Retailer + roundDollarPoints receipt.Total
        + quarterPoints receipt.Total + pairPoints receipt.Items
        + itemsPoints receipt.Items + datePoints receipt.PurchaseDate
        + timePoints receipt.PurchaseTime := by
    unfold CalculatePointsFromReceipt
    exact wrapInt64_of_fits _ (by omega) hsum
  refine ⟨hr.1, hd.1, hq.1, hp.1, fun item hmem => (heach item hmem).1, hi.1, hdate.1,
    htime.1, hsum, hval, ?_⟩
  rw [hval]
  omega

/-- C20 at the test receipt "Points earned for every criteria": the contributions
`6 + 50 + 25 + 5 + 7 + 6 + 10` are non-negative and the function returns their sum, 109. -/
theorem C20_witness_every_criteria :
    CalculatePointsFromReceipt everyCriteriaReceipt
        = retailerPoints everyCriteriaReceipt.Retailer
          + roundDollarPoints everyCriteriaReceipt.Total
          + quarterPoints everyCriteriaReceipt.Total + pairPoints everyCriteriaReceipt.Items
          + itemsPoints everyCriteriaReceipt.Items
          + datePoints everyCriteriaReceipt.PurchaseDate
          + timePoints everyCriteriaReceipt.PurchaseTime
      ∧ 0 ≤ CalculatePointsFromReceipt everyCriteriaReceipt :=
  (C20_points_are_the_sum_of_contributions everyCriteriaReceipt (by decide) (by decide)
    (by
      intro item hmem _
      have h : item = ⟨"abc", "22.90"⟩ ∨ item = ⟨"abcdef", "10.00"⟩ := by
        simpa [everyCriteriaReceipt] using hmem
      rcases h with rfl | rfl
      · exact ⟨⟨['2', '2'], '9', '0', rfl, by decide, by decide, by decide⟩, by decide⟩
      · exact ⟨⟨['1', '0'], '0', '0', rfl, by decide, by decide, by decide⟩,
          by decide⟩)).2.2.2.2.2.2.2.2.2

end Receipts
